import Mathlib

/-!
Verification of the snapshot builder of the Power Query / M lexer
(`src/lexer/lexerSnapshot.ts`).

The embedding below translates the source file into Lean definitions.
Source text is embedded as `String`, viewed as its sequence of code units
(`String.data`); all positions are indices into that sequence, embedded as
`Nat` (the source stores non-negative JavaScript numbers).  Thrown
exceptions are embedded as the `Except` monad; the `Result` envelope of the
public surface is a two-constructor inductive mirroring `ResultKind.Ok` /
`ResultKind.Err`.

The repository files `lexer/token.ts`, `lexer/lexer.ts`, `lexer/error.ts`,
`lexer/comment.ts` and `common/stringHelpers.ts` are imported by
`lexerSnapshot.ts` but are not part of the sources under review; the types
and the one helper they contribute are modelled from the specification and
are marked `Modelled from the spec:` in their doc comments.
-/

namespace PowerQuery

/-- Modelled from the spec: `LineTokenKind` (`lexer/token.ts` is not among
the sources).  The spec fixes the nine multi-line fragment kinds and the two
comment kinds, and describes the single-line subset only elliptically
("30+ variants": identifiers, literals, keywords, operators); that subset is
embedded by a representative closed selection.  Constructor names follow the
source (`StringLiteral*` kinds, which the spec calls `TextLiteral*`). -/
inductive LineTokenKind where
  | identifier
  | numericLiteral
  | hexLiteral
  | stringLiteral
  | keywordAnd
  | keywordTrue
  | equal
  | leftParenthesis
  | rightParenthesis
  | comma
  | ampersand
  | lineComment
  | multilineComment
  | multilineCommentStart
  | multilineCommentContent
  | multilineCommentEnd
  | quotedIdentifierStart
  | quotedIdentifierContent
  | quotedIdentifierEnd
  | stringLiteralStart
  | stringLiteralContent
  | stringLiteralEnd
  deriving DecidableEq, Repr

/-- Modelled from the spec: `TokenKind` mirrors the single-line subset of
`LineTokenKind`; it omits the fragment variants and the comment kinds
(comments are emitted separately, quoted identifiers unify into
`identifier`). -/
inductive TokenKind where
  | identifier
  | numericLiteral
  | hexLiteral
  | stringLiteral
  | keywordAnd
  | keywordTrue
  | equal
  | leftParenthesis
  | rightParenthesis
  | comma
  | ampersand
  deriving DecidableEq, Repr

/-- Modelled from the spec: the unchecked cast
`(flatToken.kind as unknown) as TokenKind` of `LexerSnapshot.factory`.
The source's enumerations are string enums whose single-line members share
their values, so the cast yields a valid `TokenKind` exactly on the
single-line subset; on any other kind the cast produces a value outside
`TokenKind`, embedded here as `none`. -/
def lineTokenKindToTokenKind : LineTokenKind → Option TokenKind
  | .identifier => some .identifier
  | .numericLiteral => some .numericLiteral
  | .hexLiteral => some .hexLiteral
  | .stringLiteral => some .stringLiteral
  | .keywordAnd => some .keywordAnd
  | .keywordTrue => some .keywordTrue
  | .equal => some .equal
  | .leftParenthesis => some .leftParenthesis
  | .rightParenthesis => some .rightParenthesis
  | .comma => some .comma
  | .ampersand => some .ampersand
  | _ => none

/-- Position of a whole token: absolute code-unit offset, offset within the
containing line, and zero-based line number (`TokenPosition` of
`lexer/token.ts`, fields as in the spec's data model). -/
structure TokenPosition where
  codeUnit : Nat
  lineCodeUnit : Nat
  lineNumber : Nat
  deriving DecidableEq, Repr

/-- Modelled from the spec: a line token of `lexer/token.ts`; positions are
line-relative code-unit offsets. -/
structure LineToken where
  kind : LineTokenKind
  data : String
  positionStart : Nat
  positionEnd : Nat
  deriving DecidableEq, Repr

/-- Modelled from the spec: the status kinds of a `Lexer.TLine`
(`Touched`, `Untouched`, `TouchedWithError`, `Error`). -/
inductive LineKind where
  | touched
  | untouched
  | touchedWithError
  | error
  deriving DecidableEq, Repr

/-- Modelled from the spec: the lex mode carried across line boundaries. -/
inductive LexMode where
  | default
  | comment
  | text
  | quotedIdentifier
  deriving DecidableEq, Repr

/-- Modelled from the spec: a line of `Lexer.State` (`lexer/lexer.ts` is not
among the sources): status kind, text, terminator recorded verbatim, line
tokens, and entry/exit lex modes. -/
structure Line where
  kind : LineKind
  text : String
  lineTerminator : String
  tokens : List LineToken
  modeStart : LexMode := LexMode.default
  modeEnd : LexMode := LexMode.default
  deriving DecidableEq, Repr

/-- Modelled from the spec: `Lexer.State`, the ordered sequence of lines. -/
structure State where
  lines : List Line
  deriving DecidableEq, Repr

/-- Whole token of a snapshot.  The `kind` field is embedded as
`Option TokenKind`: the source's default stitching branch writes the result
of an unchecked cast into this field, and `none` marks the (claimed
unreachable) case of a cast from a kind outside the single-line subset. -/
structure Token where
  kind : Option TokenKind
  data : String
  positionStart : TokenPosition
  positionEnd : TokenPosition
  deriving DecidableEq, Repr

/-- Comment kind of `lexer/comment.ts` (modelled from the spec). -/
inductive CommentKind where
  | line
  | multiline
  deriving DecidableEq, Repr

/-- Comment of a snapshot (`TComment` of `lexer/comment.ts`, modelled from
the spec: the line and multiline variants share these fields). -/
structure TComment where
  kind : CommentKind
  data : String
  containsNewline : Bool
  positionStart : TokenPosition
  positionEnd : TokenPosition
  deriving DecidableEq, Repr

/-- Line terminator record of the snapshot builder: absolute code-unit
offset of the terminator and its verbatim text. -/
structure LineTerminator where
  codeUnit : Nat
  text : String
  deriving DecidableEq, Repr

/-- Flat line token produced by `flattenLineTokens`: a line token carried to
absolute positions plus its monotonic `flatIndex`. -/
structure FlatLineToken where
  kind : LineTokenKind
  data : String
  positionStart : TokenPosition
  positionEnd : TokenPosition
  flatIndex : Nat
  deriving DecidableEq, Repr

/-- Result of `flattenLineTokens`. -/
structure FlattenedLines where
  text : String
  lineTerminators : List LineTerminator
  flatLineTokens : List FlatLineToken
  deriving DecidableEq, Repr

/-- Modelled from the spec: `GraphemePosition` of
`common/stringHelpers.ts` — line number, line code-unit offset, and the
column measured in grapheme clusters. -/
structure GraphemePosition where
  lineCodeUnit : Nat
  lineNumber : Nat
  columnNumber : Nat
  deriving DecidableEq, Repr

/-- Modelled from the spec: the kind payload of
`UnterminatedMultilineTokenError` (`lexer/error.ts`). -/
inductive UnterminatedMultilineTokenKind where
  | multilineComment
  | string
  | quotedIdentifier
  deriving DecidableEq, Repr

/-- Modelled from the spec: the inner lexer errors of `lexer/error.ts`
(closed set; the snapshot builder itself constructs only
`unterminatedMultilineToken`). -/
inductive TInnerLexerError where
  | unexpectedEof (pos : GraphemePosition)
  | unexpectedRead (pos : GraphemePosition)
  | expectedHexLiteral (pos : GraphemePosition)
  | expectedKeywordOrIdentifier (pos : GraphemePosition)
  | expectedNumericLiteral (pos : GraphemePosition)
  | unterminatedMultilineToken (pos : GraphemePosition) (kind : UnterminatedMultilineTokenKind)
  deriving DecidableEq, Repr

/-- Modelled from the spec: `CommonError.InvariantError` — an
impossible-state error carrying a message and, at the call sites of the
snapshot builder, the offending terminator token as details. -/
structure InvariantError where
  message : String
  foundTokenEnd : Option FlatLineToken
  deriving DecidableEq, Repr

/-- Exception raised inside `LexerSnapshot.factory`: either a
`TInnerLexerError` (a thrown lexer error) or an `InvariantError` (a thrown
common error).  `tryFrom` distinguishes the two with
`LexerError.isTInnerLexerError`. -/
inductive TInnerException where
  | lexer (e : TInnerLexerError)
  | common (e : InvariantError)
  deriving DecidableEq, Repr

/-- Public error type `LexerError.TLexerError`: a `LexerError` wrapping an
inner lexer error, or a `CommonError` wrapping an invariant error. -/
inductive TLexerError where
  | lexerError (innerError : TInnerLexerError)
  | commonError (innerError : InvariantError)
  deriving DecidableEq, Repr

/-- Result envelope of `common`: `ResultKind.Ok` / `ResultKind.Err`. -/
inductive Result (α : Type) (ε : Type) where
  | Ok (value : α)
  | Err (error : ε)
  deriving DecidableEq, Repr

/-- Immutable snapshot (`LexerSnapshot` class fields). -/
structure LexerSnapshot where
  text : String
  tokens : List Token
  comments : List TComment
  lineTerminators : List LineTerminator
  deriving DecidableEq, Repr

/-- Code-unit length of an embedded text (`.length` of a JavaScript
string). -/
def strLen (s : String) : Nat := s.data.length

/-- JavaScript `String.prototype.substring(a, b)` for the in-range,
ordered case used by the snapshot builder: the code units of positions
`[a, b)`.  (The argument-swapping and clamping behaviour of the JavaScript
method is never exercised by the call sites embedded here.) -/
def jsSubstring (s : String) (a b : Nat) : String := ⟨(s.data.take b).drop a⟩

/-- Modelled from the spec: the number of extended grapheme clusters of a
text.  The claims settled in this file do not depend on cluster boundaries,
so clustering (UAX #29) is modelled as one cluster per code unit. -/
def graphemeCount (s : String) : Nat := s.data.length

/-- Modelled from the spec: `StringHelpers.graphemePositionFrom(text,
lineCodeUnit, lineNumber, codeUnit)` — count grapheme clusters from the
start of `text` up to `lineCodeUnit` to obtain the column.  The trailing
`codeUnit` argument mirrors the call shape of the source; the spec does not
describe a use for it and it does not enter the result. -/
def graphemePositionFrom (text : String) (lineCodeUnit lineNumber _codeUnit : Nat) :
    GraphemePosition :=
  { lineCodeUnit := lineCodeUnit
    lineNumber := lineNumber
    columnNumber := graphemeCount ⟨text.data.take lineCodeUnit⟩ }

/-- Substring-bound loop of `LexerSnapshot.graphemePositionStartFrom`
(source lines 47–57): walk the line terminators, moving the substring start
past every terminator strictly before `positionStart.codeUnit`, and break at
the first terminator at or past `positionEnd.codeUnit`, which fixes the
substring end just past that terminator. -/
def substringBoundsAux (positionStartCU positionEndCU : Nat) :
    List LineTerminator → Nat → Nat → Nat × Nat
  | [], s, e => (s, e)
  | lt :: rest, s, e =>
    let s' := if lt.codeUnit < positionStartCU then lt.codeUnit + strLen lt.text else s
    if positionEndCU ≤ lt.codeUnit then (s', lt.codeUnit + strLen lt.text)
    else substringBoundsAux positionStartCU positionEndCU rest s' e

/-- Static method `LexerSnapshot.graphemePositionStartFrom`.  The source
takes the token and reads only its `positionStart` and `positionEnd` fields;
the embedding takes those two fields directly so that both `Token` and
`FlatLineToken` callers share it. -/
def LexerSnapshot.graphemePositionStartFrom (text : String)
    (lineTerminators : List LineTerminator)
    (positionStart positionEnd : TokenPosition) : GraphemePosition :=
  let bounds := substringBoundsAux positionStart.codeUnit positionEnd.codeUnit
    lineTerminators 0 (strLen text)
  graphemePositionFrom (jsSubstring text bounds.1 bounds.2)
    positionStart.lineCodeUnit positionStart.lineNumber positionEnd.codeUnit

/-- Inner token loop of `flattenLineTokens`: carry the tokens of one line to
absolute positions, threading the running `flatIndex`. -/
def flattenTokensAux (lineNumber lineTextOffset : Nat) :
    List LineToken → Nat → List FlatLineToken
  | [], _ => []
  | lineToken :: rest, flatIndex =>
    { kind := lineToken.kind
      data := lineToken.data
      positionStart :=
        { codeUnit := lineTextOffset + lineToken.positionStart
          lineCodeUnit := lineToken.positionStart
          lineNumber := lineNumber }
      positionEnd :=
        { codeUnit := lineTextOffset + lineToken.positionEnd
          lineCodeUnit := lineToken.positionEnd
          lineNumber := lineNumber }
      flatIndex := flatIndex } :: flattenTokensAux lineNumber lineTextOffset rest (flatIndex + 1)

/-- Line loop of `flattenLineTokens`, recursing over the remaining lines
with the running line number, text offset and flat index.  The terminator
text is appended to the flattened text for every line except the last
(`lineNumber !== numLines - 1` in the source), while a `LineTerminator`
record is pushed for every line. -/
def flattenAux : List Line → Nat → Nat → Nat → FlattenedLines
  | [], _, _, _ => { text := "", lineTerminators := [], flatLineTokens := [] }
  | line :: rest, lineNumber, lineTextOffset, flatIndex =>
    let tail := flattenAux rest (lineNumber + 1)
      (lineTextOffset + strLen line.text + strLen line.lineTerminator)
      (flatIndex + line.tokens.length)
    { text :=
        (if rest.isEmpty then line.text else line.text ++ line.lineTerminator) ++ tail.text
      lineTerminators :=
        { codeUnit := lineTextOffset + strLen line.text, text := line.lineTerminator }
          :: tail.lineTerminators
      flatLineTokens :=
        flattenTokensAux lineNumber lineTextOffset line.tokens flatIndex
          ++ tail.flatLineTokens }

/-- The `flattenLineTokens` function of the source: concatenate the lines'
text, record every terminator's absolute offset, and carry every line token
to absolute positions with a monotonic `flatIndex`. -/
def flattenLineTokens (state : State) : FlattenedLines :=
  flattenAux state.lines 0 0 0

/-- Index loop of `collectWhileContent`.  The source walks `flatTokens` by
index starting at `tokenStart.flatIndex + 1`, collecting while the kind
equals `contentKind`; the embedding walks the suffix of the array from that
index, which visits the same elements.  The paired second component is
`flatTokens[flatIndex]` at the loop's exit — the first token after the run,
`none` past the end of the array. -/
def collectGo (contentKind : LineTokenKind) :
    List FlatLineToken → List FlatLineToken →
    List FlatLineToken × Option FlatLineToken
  | [], acc => (acc, none)
  | token :: rest, acc =>
    if token.kind = contentKind then collectGo contentKind rest (acc ++ [token])
    else (acc, some token)

/-- Result record of `collectWhileContent`. -/
structure FlatLineCollection where
  tokenStart : FlatLineToken
  collectedTokens : List FlatLineToken
  maybeTokenEnd : Option FlatLineToken
  deriving DecidableEq, Repr

/-- The `collectWhileContent` function of the source: collect the contiguous
run of `contentKind` tokens that starts right after `tokenStart.flatIndex`,
together with the first token after the run (if any). -/
def collectWhileContent (flatTokens : List FlatLineToken) (tokenStart : FlatLineToken)
    (contentKind : LineTokenKind) : FlatLineCollection :=
  let collected := collectGo contentKind (flatTokens.drop (tokenStart.flatIndex + 1)) []
  { tokenStart := tokenStart
    collectedTokens := collected.1
    maybeTokenEnd := collected.2 }

/-- The `readLineComment` function of the source. -/
def readLineComment (flatToken : FlatLineToken) : TComment :=
  { kind := CommentKind.line
    data := flatToken.data
    containsNewline := true
    positionStart := flatToken.positionStart
    positionEnd := flatToken.positionEnd }

/-- The `readSingleLineMultilineComment` function of the source: a multiline
comment that spans a single line. -/
def readSingleLineMultilineComment (flatToken : FlatLineToken) : TComment :=
  { kind := CommentKind.multiline
    data := flatToken.data
    containsNewline := flatToken.positionStart.lineNumber ≠ flatToken.positionEnd.lineNumber
    positionStart := flatToken.positionStart
    positionEnd := flatToken.positionEnd }

/-- Result record of `readMultilineComment`. -/
structure ConcatenatedCommentRead where
  comment : TComment
  flatIndexEnd : Nat
  deriving DecidableEq, Repr

/-- Result record of `readQuotedIdentifier` / `readStringLiteral`. -/
structure ConcatenatedTokenRead where
  token : Token
  flatIndexEnd : Nat
  deriving DecidableEq, Repr

/-- The `readMultilineComment` function of the source: collect the content
run after a `MultilineCommentStart`; a missing successor throws
`UnterminatedMultilineTokenError`, a successor other than
`MultilineCommentEnd` throws an `InvariantError`, and otherwise one
multiline comment covering the raw substring from the start's
`positionStart.codeUnit` to the end's `positionEnd.codeUnit` is returned. -/
def readMultilineComment (flattenedLines : FlattenedLines) (tokenStart : FlatLineToken) :
    Except TInnerException ConcatenatedCommentRead :=
  let collection := collectWhileContent flattenedLines.flatLineTokens tokenStart
    LineTokenKind.multilineCommentContent
  match collection.maybeTokenEnd with
  | none =>
    Except.error (TInnerException.lexer (TInnerLexerError.unterminatedMultilineToken
      (LexerSnapshot.graphemePositionStartFrom flattenedLines.text
        flattenedLines.lineTerminators tokenStart.positionStart tokenStart.positionEnd)
      UnterminatedMultilineTokenKind.multilineComment))
  | some tokenEnd =>
    if tokenEnd.kind ≠ LineTokenKind.multilineCommentEnd then
      Except.error (TInnerException.common
        { message := "once a multiline token starts it should either reach a paired end token, or eof"
          foundTokenEnd := some tokenEnd })
    else
      Except.ok
        { comment :=
            { kind := CommentKind.multiline
              data := jsSubstring flattenedLines.text tokenStart.positionStart.codeUnit
                tokenEnd.positionEnd.codeUnit
              containsNewline :=
                tokenStart.positionStart.lineNumber ≠ tokenEnd.positionEnd.lineNumber
              positionStart := tokenStart.positionStart
              positionEnd := tokenEnd.positionEnd }
          flatIndexEnd := tokenEnd.flatIndex }

/-- The `readQuotedIdentifier` function of the source: like
`readMultilineComment` but over the `QuotedIdentifier*` kinds, emitting a
`Token` of kind `Identifier`. -/
def readQuotedIdentifier (flattenedLines : FlattenedLines) (tokenStart : FlatLineToken) :
    Except TInnerException ConcatenatedTokenRead :=
  let collection := collectWhileContent flattenedLines.flatLineTokens tokenStart
    LineTokenKind.quotedIdentifierContent
  match collection.maybeTokenEnd with
  | none =>
    Except.error (TInnerException.lexer (TInnerLexerError.unterminatedMultilineToken
      (LexerSnapshot.graphemePositionStartFrom flattenedLines.text
        flattenedLines.lineTerminators tokenStart.positionStart tokenStart.positionEnd)
      UnterminatedMultilineTokenKind.quotedIdentifier))
  | some tokenEnd =>
    if tokenEnd.kind ≠ LineTokenKind.quotedIdentifierEnd then
      Except.error (TInnerException.common
        { message := "once a multiline token starts it should either reach a paired end token, or eof"
          foundTokenEnd := some tokenEnd })
    else
      Except.ok
        { token :=
            { kind := some TokenKind.identifier
              data := jsSubstring flattenedLines.text tokenStart.positionStart.codeUnit
                tokenEnd.positionEnd.codeUnit
              positionStart := tokenStart.positionStart
              positionEnd := tokenEnd.positionEnd }
          flatIndexEnd := tokenEnd.flatIndex }

/-- The `readStringLiteral` function of the source: like
`readMultilineComment` but over the `StringLiteral*` kinds, emitting a
`Token` of kind `StringLiteral`. -/
def readStringLiteral (flattenedLines : FlattenedLines) (tokenStart : FlatLineToken) :
    Except TInnerException ConcatenatedTokenRead :=
  let collection := collectWhileContent flattenedLines.flatLineTokens tokenStart
    LineTokenKind.stringLiteralContent
  match collection.maybeTokenEnd with
  | none =>
    Except.error (TInnerException.lexer (TInnerLexerError.unterminatedMultilineToken
      (LexerSnapshot.graphemePositionStartFrom flattenedLines.text
        flattenedLines.lineTerminators tokenStart.positionStart tokenStart.positionEnd)
      UnterminatedMultilineTokenKind.string))
  | some tokenEnd =>
    if tokenEnd.kind ≠ LineTokenKind.stringLiteralEnd then
      Except.error (TInnerException.common
        { message := "once a multiline token starts it should either reach a paired end token, or eof"
          foundTokenEnd := some tokenEnd })
    else
      Except.ok
        { token :=
            { kind := some TokenKind.stringLiteral
              data := jsSubstring flattenedLines.text tokenStart.positionStart.codeUnit
                tokenEnd.positionEnd.codeUnit
              positionStart := tokenStart.positionStart
              positionEnd := tokenEnd.positionEnd }
          flatIndexEnd := tokenEnd.flatIndex }

/-- Stitching loop of `LexerSnapshot.factory` (the `while` loop over
`flatIndex`).  The loop of the source advances `flatIndex` by at least one
per iteration — the multi-line branches jump to the end fragment's
`flatIndex`, which on every output of `flattenLineTokens` is the fragment's
position in the array — so the explicit `fuel` argument, an embedding device
for the loop, never runs out when the loop is entered with
`fuel = numFlatTokens + 1`; its exhaustion branch returns the accumulators
unchanged, like the normal exit. -/
def factoryLoop (flattenedLines : FlattenedLines) :
    Nat → Nat → List Token → List TComment →
    Except TInnerException (List Token × List TComment)
  | 0, _, tokens, comments => Except.ok (tokens, comments)
  | fuel + 1, flatIndex, tokens, comments =>
    match flattenedLines.flatLineTokens.get? flatIndex with
    | none => Except.ok (tokens, comments)
    | some flatToken =>
      match flatToken.kind with
      | LineTokenKind.lineComment =>
        factoryLoop flattenedLines fuel (flatIndex + 1) tokens
          (comments ++ [readLineComment flatToken])
      | LineTokenKind.multilineComment =>
        factoryLoop flattenedLines fuel (flatIndex + 1) tokens
          (comments ++ [readSingleLineMultilineComment flatToken])
      | LineTokenKind.multilineCommentStart =>
        match readMultilineComment flattenedLines flatToken with
        | Except.error e => Except.error e
        | Except.ok concatenatedTokenRead =>
          factoryLoop flattenedLines fuel (concatenatedTokenRead.flatIndexEnd + 1) tokens
            (comments ++ [concatenatedTokenRead.comment])
      | LineTokenKind.quotedIdentifierStart =>
        match readQuotedIdentifier flattenedLines flatToken with
        | Except.error e => Except.error e
        | Except.ok concatenatedTokenRead =>
          factoryLoop flattenedLines fuel (concatenatedTokenRead.flatIndexEnd + 1)
            (tokens ++ [concatenatedTokenRead.token]) comments
      | LineTokenKind.stringLiteralStart =>
        match readStringLiteral flattenedLines flatToken with
        | Except.error e => Except.error e
        | Except.ok concatenatedTokenRead =>
          factoryLoop flattenedLines fuel (concatenatedTokenRead.flatIndexEnd + 1)
            (tokens ++ [concatenatedTokenRead.token]) comments
      | _ =>
        factoryLoop flattenedLines fuel (flatIndex + 1)
          (tokens ++
            [{ kind := lineTokenKindToTokenKind flatToken.kind
               data := flatToken.data
               positionStart := flatToken.positionStart
               positionEnd := flatToken.positionEnd }]) comments

/-- The private `LexerSnapshot.factory`: flatten the state's line tokens and
stitch them into whole tokens and comments; any thrown error propagates as
an `Except.error`. -/
def LexerSnapshot.factory (state : State) : Except TInnerException LexerSnapshot :=
  let flattenedLines := flattenLineTokens state
  match factoryLoop flattenedLines (flattenedLines.flatLineTokens.length + 1) 0 [] [] with
  | Except.error e => Except.error e
  | Except.ok (tokens, comments) =>
    Except.ok
      { text := flattenedLines.text
        tokens := tokens
        comments := comments
        lineTerminators := flattenedLines.lineTerminators }

/-- Conversion performed by the `catch` clause of `LexerSnapshot.tryFrom`:
a caught inner lexer error (`isTInnerLexerError`) is wrapped in a
`LexerError`, anything else passes through `ensureCommonError`. -/
def wrapException : TInnerException → TLexerError
  | TInnerException.lexer e => TLexerError.lexerError e
  | TInnerException.common e => TLexerError.commonError e

/-- The public `LexerSnapshot.tryFrom`: run `factory` inside a `try`, and
turn every thrown error into an `Err` result through the `catch` clause. -/
def LexerSnapshot.tryFrom (state : State) : Result LexerSnapshot TLexerError :=
  match LexerSnapshot.factory state with
  | Except.ok value => Result.Ok value
  | Except.error e => Result.Err (wrapException e)

/-! ## Helper lemmas -/

theorem flattenAux_map_kind (f : Line → LineKind) :
    ∀ (lines : List Line) (lineNumber lineTextOffset flatIndex : Nat),
      flattenAux (lines.map fun l => { l with kind := f l }) lineNumber lineTextOffset flatIndex
        = flattenAux lines lineNumber lineTextOffset flatIndex := by
  intro lines
  induction lines with
  | nil => intro lineNumber lineTextOffset flatIndex; rfl
  | cons line rest ih =>
    intro lineNumber lineTextOffset flatIndex
    have hmap : (List.map (fun l => { l with kind := f l }) rest).isEmpty = rest.isEmpty := by
      cases rest <;> rfl
    simp only [List.map_cons, flattenAux, hmap, ih]

/-- Accumulated absolute offset of line `n`: the sum of
`text.length + lineTerminator.length` over the preceding lines. -/
def lineOffsetAt (lines : List Line) (n : Nat) : Nat :=
  ((lines.take n).map fun l => strLen l.text + strLen l.lineTerminator).sum

/-- Number of line tokens on the lines preceding line `n`, i.e. the flat
index of line `n`'s first token. -/
def tokensBefore (lines : List Line) (n : Nat) : Nat :=
  ((lines.take n).map fun l => l.tokens.length).sum

theorem lineOffsetAt_cons (l : Line) (ls : List Line) (n : Nat) :
    lineOffsetAt (l :: ls) (n + 1)
      = strLen l.text + strLen l.lineTerminator + lineOffsetAt ls n := by
  simp [lineOffsetAt]

theorem tokensBefore_cons (l : Line) (ls : List Line) (n : Nat) :
    tokensBefore (l :: ls) (n + 1) = l.tokens.length + tokensBefore ls n := by
  simp [tokensBefore]

theorem flattenTokensAux_get? :
    ∀ (toks : List LineToken) (lineNumber lineTextOffset flatIndex j : Nat),
      (flattenTokensAux lineNumber lineTextOffset toks flatIndex).get? j
        = (toks.get? j).map fun tok =>
            { kind := tok.kind
              data := tok.data
              positionStart :=
                { codeUnit := lineTextOffset + tok.positionStart
                  lineCodeUnit := tok.positionStart, lineNumber := lineNumber }
              positionEnd :=
                { codeUnit := lineTextOffset + tok.positionEnd
                  lineCodeUnit := tok.positionEnd, lineNumber := lineNumber }
              flatIndex := flatIndex + j } := by
  intro toks
  induction toks with
  | nil => intro _ _ _ j; simp [flattenTokensAux]
  | cons t rest ih =>
    intro lineNumber lineTextOffset flatIndex j
    cases j with
    | zero => simp [flattenTokensAux]
    | succ j =>
      simp only [flattenTokensAux, List.get?_cons_succ]
      rw [ih]
      cases h : rest.get? j with
      | none => rfl
      | some tok =>
        simp only [Option.map_some', Option.some.injEq, FlatLineToken.mk.injEq,
          TokenPosition.mk.injEq]
        and_intros <;> first | trivial | omega

theorem flattenTokensAux_length (toks : List LineToken) :
    ∀ (lineNumber lineTextOffset flatIndex : Nat),
      (flattenTokensAux lineNumber lineTextOffset toks flatIndex).length = toks.length := by
  induction toks with
  | nil => intro _ _ _; rfl
  | cons t rest ih => intro _ _ _; simp [flattenTokensAux, ih]

theorem flattenAux_terms_get? :
    ∀ (lines : List Line) (lineNumber lineTextOffset flatIndex n : Nat),
      (flattenAux lines lineNumber lineTextOffset flatIndex).lineTerminators.get? n
        = (lines.get? n).map fun line =>
            { codeUnit := lineTextOffset + lineOffsetAt lines n + strLen line.text
              text := line.lineTerminator } := by
  intro lines
  induction lines with
  | nil => intro _ _ _ n; simp [flattenAux]
  | cons l rest ih =>
    intro lineNumber lineTextOffset flatIndex n
    cases n with
    | zero => simp [flattenAux, lineOffsetAt]
    | succ n =>
      simp only [flattenAux, List.get?_cons_succ]
      rw [ih]
      cases h : rest.get? n with
      | none => rfl
      | some line =>
        simp only [Option.map_some', Option.some.injEq, LineTerminator.mk.injEq,
          lineOffsetAt_cons]
        and_intros <;> first | trivial | omega

theorem flattenAux_flat_get :
    ∀ (lines : List Line) (lineNumber lineTextOffset flatIndex n : Nat) (line : Line),
      lines.get? n = some line →
      ∀ (j : Nat) (tok : LineToken), line.tokens.get? j = some tok →
        (flattenAux lines lineNumber lineTextOffset flatIndex).flatLineTokens.get?
            (tokensBefore lines n + j)
          = some
              { kind := tok.kind
                data := tok.data
                positionStart :=
                  { codeUnit := lineTextOffset + lineOffsetAt lines n + tok.positionStart
                    lineCodeUnit := tok.positionStart, lineNumber := lineNumber + n }
                positionEnd :=
                  { codeUnit := lineTextOffset + lineOffsetAt lines n + tok.positionEnd
                    lineCodeUnit := tok.positionEnd, lineNumber := lineNumber + n }
                flatIndex := flatIndex + tokensBefore lines n + j } := by
  intro lines
  induction lines with
  | nil => intro _ _ _ n line h; simp at h
  | cons l rest ih =>
    intro lineNumber lineTextOffset flatIndex n line hline j tok htok
    cases n with
    | zero =>
      rw [List.get?_cons_zero, Option.some.injEq] at hline
      subst hline
      obtain ⟨hj, -⟩ := List.get?_eq_some.mp htok
      simp only [flattenAux]
      rw [List.get?_append (by rw [flattenTokensAux_length]; simpa [tokensBefore] using hj)]
      rw [flattenTokensAux_get?]
      simp only [tokensBefore, List.take_zero, List.map_nil, List.sum_nil, Nat.zero_add, htok,
        Option.map_some', Option.some.injEq, FlatLineToken.mk.injEq, TokenPosition.mk.injEq,
        lineOffsetAt]
      and_intros <;> trivial
    | succ n =>
      have hidx : tokensBefore (l :: rest) (n + 1) + j
          = l.tokens.length + (tokensBefore rest n + j) := by
        rw [tokensBefore_cons]; omega
      simp only [flattenAux, hidx]
      rw [List.get?_append_right (by rw [flattenTokensAux_length]; omega)]
      rw [flattenTokensAux_length]
      have hsub : l.tokens.length + (tokensBefore rest n + j) - l.tokens.length
          = tokensBefore rest n + j := by omega
      rw [hsub]
      rw [List.get?_cons_succ] at hline
      rw [ih (lineNumber + 1)
        (lineTextOffset + strLen l.text + strLen l.lineTerminator)
        (flatIndex + l.tokens.length) n line hline j tok htok]
      simp only [Option.some.injEq, FlatLineToken.mk.injEq, TokenPosition.mk.injEq,
        lineOffsetAt_cons, tokensBefore_cons]
      and_intros <;> first | trivial | omega

theorem flattenAux_coherent :
    ∀ (lines : List Line) (lineNumber lineTextOffset flatIndex i : Nat) (t : FlatLineToken),
      (flattenAux lines lineNumber lineTextOffset flatIndex).flatLineTokens.get? i = some t →
      t.flatIndex = flatIndex + i := by
  intro lines
  induction lines with
  | nil => intro _ _ _ i t h; simp [flattenAux] at h
  | cons l rest ih =>
    intro lineNumber lineTextOffset flatIndex i t h
    simp only [flattenAux] at h
    by_cases hi : i < (flattenTokensAux lineNumber lineTextOffset l.tokens flatIndex).length
    · rw [List.get?_append hi] at h
      rw [flattenTokensAux_get?] at h
      cases htok : l.tokens.get? i with
      | none => rw [htok] at h; simp at h
      | some tok =>
        rw [htok] at h
        simp only [Option.map_some', Option.some.injEq] at h
        rw [← h]
    · push_neg at hi
      rw [List.get?_append_right hi] at h
      have hlen : (flattenTokensAux lineNumber lineTextOffset l.tokens flatIndex).length
          = l.tokens.length := flattenTokensAux_length _ _ _ _
      rw [hlen] at hi h
      have := ih (lineNumber + 1) (lineTextOffset + strLen l.text + strLen l.lineTerminator)
        (flatIndex + l.tokens.length) (i - l.tokens.length) t h
      omega

/-! ## Claim C7 -/

/-- C7: flattening assigns each line token of line `n` with line-relative
offsets `(s, e)` the absolute positions accumulated over the preceding
lines (`codeUnit = lineOffsetAt n + s`, `lineCodeUnit = s`,
`lineNumber = n`, symmetrically for the end), records each line's
terminator at the absolute offset of that line's end of text, and assigns
`flatIndex` values consecutively from 0 in emission order. -/
theorem c7_flatten_positions (state : State) :
    (∀ (n : Nat) (line : Line), state.lines.get? n = some line →
      ∀ (j : Nat) (tok : LineToken), line.tokens.get? j = some tok →
        (flattenLineTokens state).flatLineTokens.get? (tokensBefore state.lines n + j)
          = some
              { kind := tok.kind
                data := tok.data
                positionStart :=
                  { codeUnit := lineOffsetAt state.lines n + tok.positionStart
                    lineCodeUnit := tok.positionStart, lineNumber := n }
                positionEnd :=
                  { codeUnit := lineOffsetAt state.lines n + tok.positionEnd
                    lineCodeUnit := tok.positionEnd, lineNumber := n }
                flatIndex := tokensBefore state.lines n + j }) ∧
    (∀ n : Nat,
      (flattenLineTokens state).lineTerminators.get? n
        = (state.lines.get? n).map fun line =>
            { codeUnit := lineOffsetAt state.lines n + strLen line.text
              text := line.lineTerminator }) ∧
    (∀ (i : Nat) (t : FlatLineToken),
      (flattenLineTokens state).flatLineTokens.get? i = some t → t.flatIndex = i) := by
  refine ⟨?_, ?_, ?_⟩
  · intro n line hline j tok htok
    have := flattenAux_flat_get state.lines 0 0 0 n line hline j tok htok
    simpa [flattenLineTokens] using this
  · intro n
    have := flattenAux_terms_get? state.lines 0 0 0 n
    simpa [flattenLineTokens] using this
  · intro i t h
    have := flattenAux_coherent state.lines 0 0 0 i t h
    simpa using this

/-- Two-line state exercising the position mapping. -/
def c7State : State :=
  { lines :=
      [{ kind := LineKind.touched
         text := "ab"
         lineTerminator := "\n"
         tokens := [{ kind := LineTokenKind.identifier, data := "ab",
                      positionStart := 0, positionEnd := 2 }] },
       { kind := LineKind.touched
         text := "c=d"
         lineTerminator := ""
         tokens := [{ kind := LineTokenKind.identifier, data := "c",
                      positionStart := 0, positionEnd := 1 },
                    { kind := LineTokenKind.equal, data := "=",
                      positionStart := 1, positionEnd := 2 }] }] }

/-- C7 witness: the characterization applied to a concrete two-line state,
at the second token of the second line. -/
theorem c7_witness :
    (flattenLineTokens c7State).flatLineTokens.get? (tokensBefore c7State.lines 1 + 1)
      = some
          { kind := LineTokenKind.equal
            data := "="
            positionStart :=
              { codeUnit := lineOffsetAt c7State.lines 1 + 1, lineCodeUnit := 1, lineNumber := 1 }
            positionEnd :=
              { codeUnit := lineOffsetAt c7State.lines 1 + 2, lineCodeUnit := 2, lineNumber := 1 }
            flatIndex := tokensBefore c7State.lines 1 + 1 } ∧
    (flattenLineTokens c7State).lineTerminators.get? 0
      = some { codeUnit := lineOffsetAt c7State.lines 0 + strLen "ab", text := "\n" } := by
  constructor
  · exact (c7_flatten_positions c7State).1 1
      { kind := LineKind.touched
        text := "c=d"
        lineTerminator := ""
        tokens := [{ kind := LineTokenKind.identifier, data := "c",
                     positionStart := 0, positionEnd := 1 },
                   { kind := LineTokenKind.equal, data := "=",
                     positionStart := 1, positionEnd := 2 }] }
      rfl 1 { kind := LineTokenKind.equal, data := "=", positionStart := 1, positionEnd := 2 } rfl
  · exact ((c7_flatten_positions c7State).2.1 0).trans rfl

/-! ## Claim C3 -/

/-- Concatenation of every line's `text ++ lineTerminator`, in order — the
round-trip formula of the claim. -/
def linesConcat : List Line → String
  | [] => ""
  | line :: rest => line.text ++ line.lineTerminator ++ linesConcat rest

theorem tryFrom_ok_iff (state : State) (snap : LexerSnapshot) :
    LexerSnapshot.tryFrom state = Result.Ok snap
      ↔ LexerSnapshot.factory state = Except.ok snap := by
  unfold LexerSnapshot.tryFrom
  cases h : LexerSnapshot.factory state <;> simp

theorem factory_text (state : State) (snap : LexerSnapshot)
    (h : LexerSnapshot.factory state = Except.ok snap) :
    snap.text = (flattenLineTokens state).text := by
  simp only [LexerSnapshot.factory] at h
  cases hl : factoryLoop (flattenLineTokens state)
      ((flattenLineTokens state).flatLineTokens.length + 1) 0 [] [] with
  | error e => rw [hl] at h; simp at h
  | ok pr =>
    obtain ⟨toks, coms⟩ := pr
    rw [hl] at h
    simp only [Except.ok.injEq] at h
    rw [← h]

theorem flattenAux_text_lastEmpty :
    ∀ (lines : List Line), (∀ l, lines.getLast? = some l → l.lineTerminator = "") →
      ∀ (lineNumber lineTextOffset flatIndex : Nat),
        (flattenAux lines lineNumber lineTextOffset flatIndex).text = linesConcat lines := by
  intro lines
  induction lines with
  | nil => intro _ _ _ _; rfl
  | cons l rest ih =>
    intro hlast lineNumber lineTextOffset flatIndex
    cases rest with
    | nil =>
      have hterm : l.lineTerminator = "" := hlast l (by simp)
      apply String.ext
      simp [flattenAux, linesConcat, hterm, String.data_append]
    | cons r rs =>
      have hlast' : ∀ x, (r :: rs).getLast? = some x → x.lineTerminator = "" := by
        intro x hx
        exact hlast x (by rw [List.getLast?_cons_cons]; exact hx)
      have hrec := ih hlast' (lineNumber + 1)
        (lineTextOffset + strLen l.text + strLen l.lineTerminator)
        (flatIndex + l.tokens.length)
      have hstep : (flattenAux (l :: r :: rs) lineNumber lineTextOffset flatIndex).text
          = (l.text ++ l.lineTerminator)
            ++ (flattenAux (r :: rs) (lineNumber + 1)
                (lineTextOffset + strLen l.text + strLen l.lineTerminator)
                (flatIndex + l.tokens.length)).text := rfl
      rw [hstep, hrec]
      apply String.ext
      simp [linesConcat, String.data_append]

/-- C3: when the final line's terminator is the empty string (as the spec
fixes it to be), the `text` of the snapshot produced by
`LexerSnapshot.tryFrom` equals the concatenation, over every line in order,
of `text ++ lineTerminator`. -/
theorem c3_text_round_trip (state : State)
    (hlast : ∀ l, state.lines.getLast? = some l → l.lineTerminator = "")
    (snap : LexerSnapshot) (h : LexerSnapshot.tryFrom state = Result.Ok snap) :
    snap.text = linesConcat state.lines := by
  rw [factory_text state snap ((tryFrom_ok_iff state snap).mp h)]
  exact flattenAux_text_lastEmpty state.lines hlast 0 0 0

/-- C3 witness: the round-trip equation on the concrete two-line state. -/
theorem c3_witness :
    { text := "ab\nc=d"
      tokens :=
        [{ kind := some TokenKind.identifier, data := "ab"
           positionStart := { codeUnit := 0, lineCodeUnit := 0, lineNumber := 0 }
           positionEnd := { codeUnit := 2, lineCodeUnit := 2, lineNumber := 0 } },
         { kind := some TokenKind.identifier, data := "c"
           positionStart := { codeUnit := 3, lineCodeUnit := 0, lineNumber := 1 }
           positionEnd := { codeUnit := 4, lineCodeUnit := 1, lineNumber := 1 } },
         { kind := some TokenKind.equal, data := "="
           positionStart := { codeUnit := 4, lineCodeUnit := 1, lineNumber := 1 }
           positionEnd := { codeUnit := 5, lineCodeUnit := 2, lineNumber := 1 } }]
      comments := []
      lineTerminators := [{ codeUnit := 2, text := "\n" }, { codeUnit := 6, text := "" }]
      : LexerSnapshot }.text = linesConcat c7State.lines := by
  refine c3_text_round_trip c7State ?_ _ (by rfl)
  intro l hl
  rw [show c7State.lines.getLast?
      = some { kind := LineKind.touched
               text := "c=d"
               lineTerminator := ""
               tokens := [{ kind := LineTokenKind.identifier, data := "c",
                            positionStart := 0, positionEnd := 1 },
                          { kind := LineTokenKind.equal, data := "=",
                            positionStart := 1, positionEnd := 2 }] } from rfl,
    Option.some.injEq] at hl
  rw [← hl]

/-! ## Claim C9 -/

/-- Start bound that `substringBoundsAux` computes, stated declaratively:
just past the last terminator strictly before `positionStart.codeUnit`, or
the accumulator when no terminator precedes it. -/
def startBoundSpec (psCU : Nat) (lts : List LineTerminator) (s : Nat) : Nat :=
  ((lts.filter fun lt => decide (lt.codeUnit < psCU)).getLast?).elim s
    fun lt => lt.codeUnit + strLen lt.text

/-- End bound that `substringBoundsAux` computes, stated declaratively:
just past the first terminator at or past `positionEnd.codeUnit`, or the
accumulator (the text length at the call site) when there is none. -/
def endBoundSpec (peCU : Nat) (lts : List LineTerminator) (e : Nat) : Nat :=
  ((lts.find? fun lt => decide (peCU ≤ lt.codeUnit))).elim e
    fun lt => lt.codeUnit + strLen lt.text

theorem substringBoundsAux_spec :
    ∀ (lts : List LineTerminator) (psCU peCU s e : Nat), psCU ≤ peCU →
      List.Pairwise (fun a b => a.codeUnit < b.codeUnit) lts →
      substringBoundsAux psCU peCU lts s e
        = (startBoundSpec psCU lts s, endBoundSpec peCU lts e) := by
  intro lts
  induction lts with
  | nil => intro psCU peCU s e _ _; simp [substringBoundsAux, startBoundSpec, endBoundSpec]
  | cons lt rest ih =>
    intro psCU peCU s e hle hpw
    obtain ⟨hforall, hpw'⟩ := List.pairwise_cons.mp hpw
    by_cases hbreak : peCU ≤ lt.codeUnit
    · have hnotlt : ¬ lt.codeUnit < psCU := by omega
      have hfilter : (lt :: rest).filter (fun x => decide (x.codeUnit < psCU)) = [] := by
        rw [List.filter_cons_of_neg (by simpa using hnotlt)]
        rw [List.filter_eq_nil]
        intro a ha
        have := hforall a ha
        simp only [decide_eq_true_eq]
        omega
      have hfind : (lt :: rest).find? (fun x => decide (peCU ≤ x.codeUnit)) = some lt :=
        List.find?_cons_of_pos _ (by simpa using hbreak)
      simp only [substringBoundsAux, if_pos hbreak, if_neg hnotlt, startBoundSpec,
        endBoundSpec, hfilter, hfind]
      rfl
    · have hfind : (lt :: rest).find? (fun x => decide (peCU ≤ x.codeUnit))
          = rest.find? (fun x => decide (peCU ≤ x.codeUnit)) :=
        List.find?_cons_of_neg _ (by simpa using hbreak)
      by_cases hs : lt.codeUnit < psCU
      · have hfilter : (lt :: rest).filter (fun x => decide (x.codeUnit < psCU))
            = lt :: rest.filter (fun x => decide (x.codeUnit < psCU)) :=
          List.filter_cons_of_pos (by simpa using hs)
        simp only [substringBoundsAux, if_neg hbreak, if_pos hs]
        rw [ih psCU peCU _ e hle hpw']
        simp only [startBoundSpec, endBoundSpec, hfilter, hfind]
        cases hfr : rest.filter (fun x => decide (x.codeUnit < psCU)) with
        | nil => simp
        | cons y ys =>
          cases hz : (y :: ys).getLast? with
          | none =>
            rw [List.getLast?_eq_none_iff] at hz
            exact absurd hz (by simp)
          | some z => simp [hz]
      · have hfilter : (lt :: rest).filter (fun x => decide (x.codeUnit < psCU))
            = rest.filter (fun x => decide (x.codeUnit < psCU)) :=
          List.filter_cons_of_neg (by simpa using hs)
        simp only [substringBoundsAux, if_neg hbreak, if_neg hs]
        rw [ih psCU peCU s e hle hpw']
        simp only [startBoundSpec, endBoundSpec, hfilter, hfind]

/-- C9 amended: `graphemePositionStartFrom` selects the substring running
from the start of the line enclosing `positionStart` to the end — the
terminator included — of the line enclosing `positionEnd` (the text end
when no terminator follows), and computes `columnNumber` by counting
grapheme clusters from that substring's start, which is the enclosing
line's start, up to `positionStart.lineCodeUnit`. -/
theorem c9_substring_bounds (text : String) (lts : List LineTerminator)
    (ps pe : TokenPosition)
    (hsorted : List.Pairwise (fun a b => a.codeUnit < b.codeUnit) lts)
    (hle : ps.codeUnit ≤ pe.codeUnit) :
    LexerSnapshot.graphemePositionStartFrom text lts ps pe
      = { lineCodeUnit := ps.lineCodeUnit
          lineNumber := ps.lineNumber
          columnNumber := graphemeCount
            ⟨(jsSubstring text (startBoundSpec ps.codeUnit lts 0)
                (endBoundSpec pe.codeUnit lts (strLen text))).data.take ps.lineCodeUnit⟩ } := by
  unfold LexerSnapshot.graphemePositionStartFrom
  rw [substringBoundsAux_spec lts ps.codeUnit pe.codeUnit 0 (strLen text) hle hsorted]
  rfl

/-- Terminators of the three-line text `"ab\ncd\nef"`. -/
def c9Terminators : List LineTerminator :=
  [{ codeUnit := 2, text := "\n" }, { codeUnit := 5, text := "\n" },
   { codeUnit := 8, text := "" }]

/-- C9 counterexample: for a token starting on line 0 (`positionStart` has
`codeUnit = 1`) and ending on line 1 (`positionEnd` has `codeUnit = 4`),
the bound loop of `graphemePositionStartFrom` selects code units `[0, 6)` —
the substring `"ab\ncd\n"` spanning both lines — and not the substring of
the single line enclosing `positionStart` (`"ab"`, or `"ab\n"` with its
terminator). -/
theorem c9_counterexample :
    substringBoundsAux 1 4 c9Terminators 0 (strLen "ab\ncd\nef") = (0, 6) ∧
      jsSubstring "ab\ncd\nef" 0 6 = "ab\ncd\n" ∧
      jsSubstring "ab\ncd\nef" 0 6 ≠ "ab" ∧
      jsSubstring "ab\ncd\nef" 0 6 ≠ "ab\n" := by
  refine ⟨rfl, rfl, ?_, ?_⟩ <;> decide

/-- C9 witness: the amended characterization applied to the concrete
terminator list and a two-line token. -/
theorem c9_witness :
    LexerSnapshot.graphemePositionStartFrom "ab\ncd\nef" c9Terminators
        { codeUnit := 1, lineCodeUnit := 1, lineNumber := 0 }
        { codeUnit := 4, lineCodeUnit := 1, lineNumber := 1 }
      = { lineCodeUnit := 1
          lineNumber := 0
          columnNumber := graphemeCount
            ⟨(jsSubstring "ab\ncd\nef" (startBoundSpec 1 c9Terminators 0)
                (endBoundSpec 4 c9Terminators (strLen "ab\ncd\nef"))).data.take 1⟩ } :=
  c9_substring_bounds "ab\ncd\nef" c9Terminators
    { codeUnit := 1, lineCodeUnit := 1, lineNumber := 0 }
    { codeUnit := 4, lineCodeUnit := 1, lineNumber := 1 }
    (by decide) (by decide)

/-! ## Stitching machinery shared by the multi-line-token claims -/

/-- The three multi-line constructs stitched by the snapshot builder. -/
inductive MultiKind where
  | comment
  | quotedIdentifier
  | string
  deriving DecidableEq, Repr

/-- Start fragment kind of a multi-line construct. -/
def startKindOf : MultiKind → LineTokenKind
  | .comment => .multilineCommentStart
  | .quotedIdentifier => .quotedIdentifierStart
  | .string => .stringLiteralStart

/-- Content fragment kind of a multi-line construct. -/
def contentKindOf : MultiKind → LineTokenKind
  | .comment => .multilineCommentContent
  | .quotedIdentifier => .quotedIdentifierContent
  | .string => .stringLiteralContent

/-- End fragment kind of a multi-line construct. -/
def endKindOf : MultiKind → LineTokenKind
  | .comment => .multilineCommentEnd
  | .quotedIdentifier => .quotedIdentifierEnd
  | .string => .stringLiteralEnd

/-- Error kind reported for an unterminated multi-line construct. -/
def errKindOf : MultiKind → UnterminatedMultilineTokenKind
  | .comment => .multilineComment
  | .quotedIdentifier => .quotedIdentifier
  | .string => .string

/-- Whether a kind is one of the three start fragments. -/
def isStartKind : LineTokenKind → Bool
  | .multilineCommentStart => true
  | .quotedIdentifierStart => true
  | .stringLiteralStart => true
  | _ => false

/-- Whether a kind is one of the six content or end fragments. -/
def isContentEndKind : LineTokenKind → Bool
  | .multilineCommentContent => true
  | .multilineCommentEnd => true
  | .quotedIdentifierContent => true
  | .quotedIdentifierEnd => true
  | .stringLiteralContent => true
  | .stringLiteralEnd => true
  | _ => false

theorem flattenLineTokens_coherent (state : State) :
    ∀ (i : Nat) (t : FlatLineToken),
      (flattenLineTokens state).flatLineTokens.get? i = some t → t.flatIndex = i := by
  intro i t h
  simpa using flattenAux_coherent state.lines 0 0 0 i t h

theorem collectGo_spec (ck : LineTokenKind) :
    ∀ (contents rest acc : List FlatLineToken),
      (∀ c ∈ contents, c.kind = ck) →
      (∀ r, rest.head? = some r → r.kind ≠ ck) →
      collectGo ck (contents ++ rest) acc = (acc ++ contents, rest.head?) := by
  intro contents
  induction contents with
  | nil =>
    intro rest acc _ hrest
    cases rest with
    | nil => simp [collectGo]
    | cons r rs =>
      have hr : ¬ r.kind = ck := hrest r rfl
      simp [collectGo, hr]
  | cons c cs ih =>
    intro rest acc hc hrest
    have hck : c.kind = ck := hc c (List.mem_cons_self c cs)
    simp only [List.cons_append]
    rw [collectGo, if_pos hck,
      ih rest (acc ++ [c]) (fun x hx => hc x (List.mem_cons_of_mem c hx)) hrest]
    simp

theorem readMultilineComment_unterminated (fl : FlattenedLines) (s : FlatLineToken)
    (contents : List FlatLineToken)
    (hdrop : fl.flatLineTokens.drop (s.flatIndex + 1) = contents)
    (hc : ∀ c ∈ contents, c.kind = LineTokenKind.multilineCommentContent) :
    readMultilineComment fl s
      = Except.error (TInnerException.lexer (TInnerLexerError.unterminatedMultilineToken
          (LexerSnapshot.graphemePositionStartFrom fl.text fl.lineTerminators
            s.positionStart s.positionEnd)
          UnterminatedMultilineTokenKind.multilineComment)) := by
  unfold readMultilineComment collectWhileContent
  rw [hdrop, show contents = contents ++ [] by simp,
    collectGo_spec _ contents [] [] hc (by intro r hr; simp at hr)]
  rfl

theorem readQuotedIdentifier_unterminated (fl : FlattenedLines) (s : FlatLineToken)
    (contents : List FlatLineToken)
    (hdrop : fl.flatLineTokens.drop (s.flatIndex + 1) = contents)
    (hc : ∀ c ∈ contents, c.kind = LineTokenKind.quotedIdentifierContent) :
    readQuotedIdentifier fl s
      = Except.error (TInnerException.lexer (TInnerLexerError.unterminatedMultilineToken
          (LexerSnapshot.graphemePositionStartFrom fl.text fl.lineTerminators
            s.positionStart s.positionEnd)
          UnterminatedMultilineTokenKind.quotedIdentifier)) := by
  unfold readQuotedIdentifier collectWhileContent
  rw [hdrop, show contents = contents ++ [] by simp,
    collectGo_spec _ contents [] [] hc (by intro r hr; simp at hr)]
  rfl

theorem readStringLiteral_unterminated (fl : FlattenedLines) (s : FlatLineToken)
    (contents : List FlatLineToken)
    (hdrop : fl.flatLineTokens.drop (s.flatIndex + 1) = contents)
    (hc : ∀ c ∈ contents, c.kind = LineTokenKind.stringLiteralContent) :
    readStringLiteral fl s
      = Except.error (TInnerException.lexer (TInnerLexerError.unterminatedMultilineToken
          (LexerSnapshot.graphemePositionStartFrom fl.text fl.lineTerminators
            s.positionStart s.positionEnd)
          UnterminatedMultilineTokenKind.string)) := by
  unfold readStringLiteral collectWhileContent
  rw [hdrop, show contents = contents ++ [] by simp,
    collectGo_spec _ contents [] [] hc (by intro r hr; simp at hr)]
  rfl

theorem readMultilineComment_run (fl : FlattenedLines) (s endTok : FlatLineToken)
    (contents rest : List FlatLineToken)
    (hdrop : fl.flatLineTokens.drop (s.flatIndex + 1) = contents ++ endTok :: rest)
    (hc : ∀ c ∈ contents, c.kind = LineTokenKind.multilineCommentContent)
    (he : endTok.kind = LineTokenKind.multilineCommentEnd) :
    readMultilineComment fl s
      = Except.ok
          { comment :=
              { kind := CommentKind.multiline
                data := jsSubstring fl.text s.positionStart.codeUnit endTok.positionEnd.codeUnit
                containsNewline := s.positionStart.lineNumber ≠ endTok.positionEnd.lineNumber
                positionStart := s.positionStart
                positionEnd := endTok.positionEnd }
            flatIndexEnd := endTok.flatIndex } := by
  unfold readMultilineComment collectWhileContent
  rw [hdrop, collectGo_spec _ contents (endTok :: rest) [] hc
    (by intro r hr; rw [List.head?_cons, Option.some.injEq] at hr; rw [← hr, he]; decide)]
  simp [he]

theorem readQuotedIdentifier_run (fl : FlattenedLines) (s endTok : FlatLineToken)
    (contents rest : List FlatLineToken)
    (hdrop : fl.flatLineTokens.drop (s.flatIndex + 1) = contents ++ endTok :: rest)
    (hc : ∀ c ∈ contents, c.kind = LineTokenKind.quotedIdentifierContent)
    (he : endTok.kind = LineTokenKind.quotedIdentifierEnd) :
    readQuotedIdentifier fl s
      = Except.ok
          { token :=
              { kind := some TokenKind.identifier
                data := jsSubstring fl.text s.positionStart.codeUnit endTok.positionEnd.codeUnit
                positionStart := s.positionStart
                positionEnd := endTok.positionEnd }
            flatIndexEnd := endTok.flatIndex } := by
  unfold readQuotedIdentifier collectWhileContent
  rw [hdrop, collectGo_spec _ contents (endTok :: rest) [] hc
    (by intro r hr; rw [List.head?_cons, Option.some.injEq] at hr; rw [← hr, he]; decide)]
  simp [he]

theorem readStringLiteral_run (fl : FlattenedLines) (s endTok : FlatLineToken)
    (contents rest : List FlatLineToken)
    (hdrop : fl.flatLineTokens.drop (s.flatIndex + 1) = contents ++ endTok :: rest)
    (hc : ∀ c ∈ contents, c.kind = LineTokenKind.stringLiteralContent)
    (he : endTok.kind = LineTokenKind.stringLiteralEnd) :
    readStringLiteral fl s
      = Except.ok
          { token :=
              { kind := some TokenKind.stringLiteral
                data := jsSubstring fl.text s.positionStart.codeUnit endTok.positionEnd.codeUnit
                positionStart := s.positionStart
                positionEnd := endTok.positionEnd }
            flatIndexEnd := endTok.flatIndex } := by
  unfold readStringLiteral collectWhileContent
  rw [hdrop, collectGo_spec _ contents (endTok :: rest) [] hc
    (by intro r hr; rw [List.head?_cons, Option.some.injEq] at hr; rw [← hr, he]; decide)]
  simp [he]

/-- Tokens emitted by one iteration of the stitching loop on a token whose
kind is not a start fragment: the default branch's cast token, or nothing
for the two comment branches. -/
def nonStartEmitTokens (t : FlatLineToken) : List Token :=
  match t.kind with
  | .lineComment => []
  | .multilineComment => []
  | _ => [{ kind := lineTokenKindToTokenKind t.kind, data := t.data,
            positionStart := t.positionStart, positionEnd := t.positionEnd }]

/-- Comments emitted by one iteration of the stitching loop on a token
whose kind is not a start fragment. -/
def nonStartEmitComments (t : FlatLineToken) : List TComment :=
  match t.kind with
  | .lineComment => [readLineComment t]
  | .multilineComment => [readSingleLineMultilineComment t]
  | _ => []

theorem factoryLoop_step_nonstart (fl : FlattenedLines) (fuel flatIndex : Nat)
    (toks : List Token) (coms : List TComment) (t : FlatLineToken)
    (ht : fl.flatLineTokens.get? flatIndex = some t)
    (hns : isStartKind t.kind = false) :
    factoryLoop fl (fuel + 1) flatIndex toks coms
      = factoryLoop fl fuel (flatIndex + 1) (toks ++ nonStartEmitTokens t)
          (coms ++ nonStartEmitComments t) := by
  obtain ⟨tk, td, tps, tpe, tfi⟩ := t
  rw [List.get?_eq_getElem?] at ht
  cases tk
  case multilineCommentStart => simp [isStartKind] at hns
  case quotedIdentifierStart => simp [isStartKind] at hns
  case stringLiteralStart => simp [isStartKind] at hns
  all_goals
    simp [factoryLoop, ht, nonStartEmitTokens, nonStartEmitComments]

theorem factoryLoop_skip (fl : FlattenedLines) :
    ∀ (n fuel flatIndex : Nat) (toks : List Token) (coms : List TComment),
      (∀ k t, flatIndex ≤ k → k < flatIndex + n →
        fl.flatLineTokens.get? k = some t → isStartKind t.kind = false) →
      flatIndex + n ≤ fl.flatLineTokens.length →
      ∃ toks' coms',
        factoryLoop fl (n + fuel) flatIndex toks coms
          = factoryLoop fl fuel (flatIndex + n) toks' coms' := by
  intro n
  induction n with
  | zero => exact fun fuel i toks coms _ _ => ⟨toks, coms, by simp⟩
  | succ n ih =>
    intro fuel i toks coms hns hlen
    have hi : i < fl.flatLineTokens.length := by omega
    obtain ⟨t, ht⟩ : ∃ t, fl.flatLineTokens.get? i = some t := by
      rw [List.get?_eq_get hi]; exact ⟨_, rfl⟩
    have hstep := factoryLoop_step_nonstart fl (n + fuel) i toks coms t ht
      (hns i t (Nat.le_refl i) (by omega) ht)
    obtain ⟨toks', coms', hrest⟩ := ih fuel (i + 1) (toks ++ nonStartEmitTokens t)
      (coms ++ nonStartEmitComments t)
      (fun k u hk1 hk2 hu => hns k u (by omega) (by omega) hu) (by omega)
    refine ⟨toks', coms', ?_⟩
    have harith1 : n + 1 + fuel = n + fuel + 1 := by omega
    have harith2 : i + (n + 1) = i + 1 + n := by omega
    rw [harith1, hstep, hrest, harith2]

theorem factoryLoop_step_start_error (fl : FlattenedLines) (fuel flatIndex : Nat)
    (toks : List Token) (coms : List TComment) (s : FlatLineToken) (e : TInnerException)
    (mk : MultiKind)
    (ht : fl.flatLineTokens.get? flatIndex = some s)
    (hstart : s.kind = startKindOf mk)
    (herr1 : mk = MultiKind.comment → readMultilineComment fl s = Except.error e)
    (herr2 : mk = MultiKind.quotedIdentifier → readQuotedIdentifier fl s = Except.error e)
    (herr3 : mk = MultiKind.string → readStringLiteral fl s = Except.error e) :
    factoryLoop fl (fuel + 1) flatIndex toks coms = Except.error e := by
  rw [List.get?_eq_getElem?] at ht
  cases mk
  · simp only [startKindOf] at hstart
    simp [factoryLoop, ht, hstart, herr1 rfl]
  · simp only [startKindOf] at hstart
    simp [factoryLoop, ht, hstart, herr2 rfl]
  · simp only [startKindOf] at hstart
    simp [factoryLoop, ht, hstart, herr3 rfl]

theorem factoryLoop_step_mcs (fl : FlattenedLines) (fuel flatIndex : Nat)
    (toks : List Token) (coms : List TComment) (s : FlatLineToken)
    (r : ConcatenatedCommentRead)
    (ht : fl.flatLineTokens.get? flatIndex = some s)
    (hk : s.kind = LineTokenKind.multilineCommentStart)
    (hread : readMultilineComment fl s = Except.ok r) :
    factoryLoop fl (fuel + 1) flatIndex toks coms
      = factoryLoop fl fuel (r.flatIndexEnd + 1) toks (coms ++ [r.comment]) := by
  rw [List.get?_eq_getElem?] at ht
  simp [factoryLoop, ht, hk, hread]

theorem factoryLoop_step_qis (fl : FlattenedLines) (fuel flatIndex : Nat)
    (toks : List Token) (coms : List TComment) (s : FlatLineToken)
    (r : ConcatenatedTokenRead)
    (ht : fl.flatLineTokens.get? flatIndex = some s)
    (hk : s.kind = LineTokenKind.quotedIdentifierStart)
    (hread : readQuotedIdentifier fl s = Except.ok r) :
    factoryLoop fl (fuel + 1) flatIndex toks coms
      = factoryLoop fl fuel (r.flatIndexEnd + 1) (toks ++ [r.token]) coms := by
  rw [List.get?_eq_getElem?] at ht
  simp [factoryLoop, ht, hk, hread]

theorem factoryLoop_step_sls (fl : FlattenedLines) (fuel flatIndex : Nat)
    (toks : List Token) (coms : List TComment) (s : FlatLineToken)
    (r : ConcatenatedTokenRead)
    (ht : fl.flatLineTokens.get? flatIndex = some s)
    (hk : s.kind = LineTokenKind.stringLiteralStart)
    (hread : readStringLiteral fl s = Except.ok r) :
    factoryLoop fl (fuel + 1) flatIndex toks coms
      = factoryLoop fl fuel (r.flatIndexEnd + 1) (toks ++ [r.token]) coms := by
  rw [List.get?_eq_getElem?] at ht
  simp [factoryLoop, ht, hk, hread]

/-! ## Claim C4 -/

/-- State whose flat tokens are `[StringLiteralStart,
MultilineCommentStart]`: the comment start is followed by zero matching
content fragments and no further token, yet the walk never reaches it. -/
def c4CounterState : State :=
  { lines :=
      [{ kind := LineKind.touched
         text := "\""
         lineTerminator := "\n"
         tokens := [{ kind := LineTokenKind.stringLiteralStart, data := "\"",
                      positionStart := 0, positionEnd := 1 }] },
       { kind := LineKind.touched
         text := "/*"
         lineTerminator := ""
         tokens := [{ kind := LineTokenKind.multilineCommentStart, data := "/*",
                      positionStart := 0, positionEnd := 2 }] }] }

/-- The flat `MultilineCommentStart` fragment of `c4CounterState`: the last
token of the stream. -/
def c4CounterMcs : FlatLineToken :=
  { kind := LineTokenKind.multilineCommentStart
    data := "/*"
    positionStart := { codeUnit := 2, lineCodeUnit := 0, lineNumber := 1 }
    positionEnd := { codeUnit := 4, lineCodeUnit := 2, lineNumber := 1 }
    flatIndex := 1 }

/-- C4 counterexample: `c4CounterState`'s flat token stream contains a
`MultilineCommentStart` followed by zero matching content fragments and
then no further token — the claim's pattern — yet `tryFrom` returns the
`InvariantError` raised at the earlier `StringLiteralStart` as an
`Err(CommonError)`, not the claimed
`UnterminatedMultilineToken(MultilineComment)` lexer error. -/
theorem c4_counterexample :
    (flattenLineTokens c4CounterState).flatLineTokens.get? 1 = some c4CounterMcs ∧
      c4CounterMcs.kind = LineTokenKind.multilineCommentStart ∧
      (flattenLineTokens c4CounterState).flatLineTokens.length = 2 ∧
      LexerSnapshot.tryFrom c4CounterState
        = Result.Err (TLexerError.commonError
            { message := "once a multiline token starts it should either reach a paired end token, or eof"
              foundTokenEnd := some c4CounterMcs }) := by
  exact ⟨rfl, rfl, rfl, rfl⟩

/-- C4 amended: for every state whose flat token sequence ends with a start
fragment followed only by matching content fragments, provided the
stitching walk reaches that start fragment — no start fragment precedes it,
otherwise the earlier one raises its own error first — `tryFrom` returns
`Err` carrying `UnterminatedMultilineToken` of the corresponding kind
(`MultilineComment` / `String` / `QuotedIdentifier`) at the grapheme
position of the start fragment. -/
theorem c4_unterminated_err (state : State) (mk : MultiKind)
    (pre contents : List FlatLineToken) (s : FlatLineToken)
    (hflat : (flattenLineTokens state).flatLineTokens = pre ++ s :: contents)
    (hpre : ∀ t ∈ pre, isStartKind t.kind = false)
    (hstart : s.kind = startKindOf mk)
    (hcontents : ∀ c ∈ contents, c.kind = contentKindOf mk) :
    LexerSnapshot.tryFrom state
      = Result.Err (TLexerError.lexerError (TInnerLexerError.unterminatedMultilineToken
          (LexerSnapshot.graphemePositionStartFrom (flattenLineTokens state).text
            (flattenLineTokens state).lineTerminators s.positionStart s.positionEnd)
          (errKindOf mk))) := by
  have hlen : (flattenLineTokens state).flatLineTokens.length
      = pre.length + (contents.length + 1) := by
    rw [hflat]; simp
  have hgets : (flattenLineTokens state).flatLineTokens.get? pre.length = some s := by
    rw [hflat, List.get?_append_right (Nat.le_refl _), Nat.sub_self]; rfl
  have hsfi : s.flatIndex = pre.length := by
    simpa using flattenLineTokens_coherent state pre.length s hgets
  have hdrop : (flattenLineTokens state).flatLineTokens.drop (s.flatIndex + 1) = contents := by
    rw [hsfi, hflat, show pre ++ s :: contents = (pre ++ [s]) ++ contents by simp,
      show pre.length + 1 = (pre ++ [s]).length by simp]
    exact List.drop_left _ _
  obtain ⟨toks', coms', hskip⟩ := factoryLoop_skip (flattenLineTokens state) pre.length
    (contents.length + 2) 0 [] []
    (by
      intro k t hk0 hklt hget
      refine hpre t ?_
      rw [hflat, List.get?_append (by omega)] at hget
      exact List.get?_mem hget)
    (by omega)
  have herr1 : mk = MultiKind.comment →
      readMultilineComment (flattenLineTokens state) s
        = Except.error (TInnerException.lexer (TInnerLexerError.unterminatedMultilineToken
            (LexerSnapshot.graphemePositionStartFrom (flattenLineTokens state).text
              (flattenLineTokens state).lineTerminators s.positionStart s.positionEnd)
            (errKindOf mk))) := by
    intro hmk
    subst hmk
    exact readMultilineComment_unterminated _ s contents hdrop
      (by simpa [contentKindOf] using hcontents)
  have herr2 : mk = MultiKind.quotedIdentifier →
      readQuotedIdentifier (flattenLineTokens state) s
        = Except.error (TInnerException.lexer (TInnerLexerError.unterminatedMultilineToken
            (LexerSnapshot.graphemePositionStartFrom (flattenLineTokens state).text
              (flattenLineTokens state).lineTerminators s.positionStart s.positionEnd)
            (errKindOf mk))) := by
    intro hmk
    subst hmk
    exact readQuotedIdentifier_unterminated _ s contents hdrop
      (by simpa [contentKindOf] using hcontents)
  have herr3 : mk = MultiKind.string →
      readStringLiteral (flattenLineTokens state) s
        = Except.error (TInnerException.lexer (TInnerLexerError.unterminatedMultilineToken
            (LexerSnapshot.graphemePositionStartFrom (flattenLineTokens state).text
              (flattenLineTokens state).lineTerminators s.positionStart s.positionEnd)
            (errKindOf mk))) := by
    intro hmk
    subst hmk
    exact readStringLiteral_unterminated _ s contents hdrop
      (by simpa [contentKindOf] using hcontents)
  have hfactory : LexerSnapshot.factory state
      = Except.error (TInnerException.lexer (TInnerLexerError.unterminatedMultilineToken
          (LexerSnapshot.graphemePositionStartFrom (flattenLineTokens state).text
            (flattenLineTokens state).lineTerminators s.positionStart s.positionEnd)
          (errKindOf mk))) := by
    simp only [LexerSnapshot.factory]
    rw [show (flattenLineTokens state).flatLineTokens.length + 1
        = pre.length + (contents.length + 2) from by omega]
    rw [show (0 : Nat) = 0 + 0 from rfl] at hskip ⊢
    rw [hskip]
    rw [show (0 + 0 + pre.length : Nat) = pre.length from by omega,
      show contents.length + 2 = (contents.length + 1) + 1 from rfl]
    rw [factoryLoop_step_start_error (flattenLineTokens state) (contents.length + 1)
      pre.length toks' coms' s _ mk hgets hstart herr1 herr2 herr3]
  simp [LexerSnapshot.tryFrom, hfactory, wrapException]

/-- State whose single line holds an unterminated multiline-comment start. -/
def c4State : State :=
  { lines :=
      [{ kind := LineKind.touched
         text := "/*"
         lineTerminator := ""
         tokens := [{ kind := LineTokenKind.multilineCommentStart, data := "/*",
                      positionStart := 0, positionEnd := 2 }] }] }

/-- The flat start fragment of `c4State`. -/
def c4Start : FlatLineToken :=
  { kind := LineTokenKind.multilineCommentStart
    data := "/*"
    positionStart := { codeUnit := 0, lineCodeUnit := 0, lineNumber := 0 }
    positionEnd := { codeUnit := 2, lineCodeUnit := 2, lineNumber := 0 }
    flatIndex := 0 }

/-- C4 witness: the unterminated-comment error on the concrete state. -/
theorem c4_witness :
    LexerSnapshot.tryFrom c4State
      = Result.Err (TLexerError.lexerError (TInnerLexerError.unterminatedMultilineToken
          (LexerSnapshot.graphemePositionStartFrom (flattenLineTokens c4State).text
            (flattenLineTokens c4State).lineTerminators c4Start.positionStart
            c4Start.positionEnd)
          (errKindOf MultiKind.comment))) :=
  c4_unterminated_err c4State MultiKind.comment [] [] c4Start (by rfl)
    (by intro t ht; simp at ht) (by rfl) (by intro c hc; simp at hc)

/-! ## Claim C5 -/

/-- The single token that stitching a complete multi-line run emits: none
for a comment run, one `Identifier` token for a quoted identifier, one
`StringLiteral` token for a string literal — in each case with the raw
substring of the flattened text from the start's `positionStart.codeUnit`
to the end's `positionEnd.codeUnit` as `data`. -/
def multiEmitTokens (mk : MultiKind) (fl : FlattenedLines) (s endTok : FlatLineToken) :
    List Token :=
  match mk with
  | MultiKind.comment => []
  | MultiKind.quotedIdentifier =>
      [{ kind := some TokenKind.identifier
         data := jsSubstring fl.text s.positionStart.codeUnit endTok.positionEnd.codeUnit
         positionStart := s.positionStart
         positionEnd := endTok.positionEnd }]
  | MultiKind.string =>
      [{ kind := some TokenKind.stringLiteral
         data := jsSubstring fl.text s.positionStart.codeUnit endTok.positionEnd.codeUnit
         positionStart := s.positionStart
         positionEnd := endTok.positionEnd }]

/-- The single comment that stitching a complete multi-line run emits: one
multiline comment for a comment run, nothing otherwise. -/
def multiEmitComments (mk : MultiKind) (fl : FlattenedLines) (s endTok : FlatLineToken) :
    List TComment :=
  match mk with
  | MultiKind.comment =>
      [{ kind := CommentKind.multiline
         data := jsSubstring fl.text s.positionStart.codeUnit endTok.positionEnd.codeUnit
         containsNewline := s.positionStart.lineNumber ≠ endTok.positionEnd.lineNumber
         positionStart := s.positionStart
         positionEnd := endTok.positionEnd }]
  | MultiKind.quotedIdentifier => []
  | MultiKind.string => []

theorem factoryLoop_step_run (fl : FlattenedLines) (mk : MultiKind)
    (fuel flatIndex : Nat) (toks : List Token) (coms : List TComment)
    (s endTok : FlatLineToken) (contents rest : List FlatLineToken)
    (hget : fl.flatLineTokens.get? flatIndex = some s)
    (hsfi : s.flatIndex = flatIndex)
    (hdrop : fl.flatLineTokens.drop (flatIndex + 1) = contents ++ endTok :: rest)
    (hstart : s.kind = startKindOf mk)
    (hcontents : ∀ c ∈ contents, c.kind = contentKindOf mk)
    (hend : endTok.kind = endKindOf mk) :
    factoryLoop fl (fuel + 1) flatIndex toks coms
      = factoryLoop fl fuel (endTok.flatIndex + 1)
          (toks ++ multiEmitTokens mk fl s endTok)
          (coms ++ multiEmitComments mk fl s endTok) := by
  have hdrop' : fl.flatLineTokens.drop (s.flatIndex + 1) = contents ++ endTok :: rest := by
    rw [hsfi]; exact hdrop
  cases mk
  · have hread := readMultilineComment_run fl s endTok contents rest hdrop'
      (by simpa [contentKindOf] using hcontents) (by simpa [endKindOf] using hend)
    simpa [multiEmitTokens, multiEmitComments] using
      factoryLoop_step_mcs fl fuel flatIndex toks coms s _ hget
        (by simpa [startKindOf] using hstart) hread
  · have hread := readQuotedIdentifier_run fl s endTok contents rest hdrop'
      (by simpa [contentKindOf] using hcontents) (by simpa [endKindOf] using hend)
    simpa [multiEmitTokens, multiEmitComments] using
      factoryLoop_step_qis fl fuel flatIndex toks coms s _ hget
        (by simpa [startKindOf] using hstart) hread
  · have hread := readStringLiteral_run fl s endTok contents rest hdrop'
      (by simpa [contentKindOf] using hcontents) (by simpa [endKindOf] using hend)
    simpa [multiEmitTokens, multiEmitComments] using
      factoryLoop_step_sls fl fuel flatIndex toks coms s _ hget
        (by simpa [startKindOf] using hstart) hread

/-- C5: when a start fragment is followed by contiguous matching content
fragments and the matching end fragment, one loop iteration emits exactly
one result — a multiline comment, an `Identifier` token, or a
`StringLiteral` token, its `data` the raw substring of the flattened text
from the start's `positionStart.codeUnit` to the end's
`positionEnd.codeUnit` — and resumes right after the end fragment, so the
intervening fragments produce no separate token or comment. -/
theorem c5_stitch_single_result (fl : FlattenedLines) (mk : MultiKind)
    (fuel flatIndex : Nat) (toks : List Token) (coms : List TComment)
    (s endTok : FlatLineToken) (contents rest : List FlatLineToken)
    (hget : fl.flatLineTokens.get? flatIndex = some s)
    (hsfi : s.flatIndex = flatIndex)
    (hdrop : fl.flatLineTokens.drop (flatIndex + 1) = contents ++ endTok :: rest)
    (hstart : s.kind = startKindOf mk)
    (hcontents : ∀ c ∈ contents, c.kind = contentKindOf mk)
    (hend : endTok.kind = endKindOf mk) :
    factoryLoop fl (fuel + 1) flatIndex toks coms
      = factoryLoop fl fuel (endTok.flatIndex + 1)
          (toks ++ multiEmitTokens mk fl s endTok)
          (coms ++ multiEmitComments mk fl s endTok) :=
  factoryLoop_step_run fl mk fuel flatIndex toks coms s endTok contents rest hget hsfi hdrop
    hstart hcontents hend

/-- Flattened lines of the two-line comment `/*` then `*/`. -/
def c5Flattened : FlattenedLines :=
  flattenLineTokens
    { lines :=
        [{ kind := LineKind.touched
           text := "/*"
           lineTerminator := "\n"
           tokens := [{ kind := LineTokenKind.multilineCommentStart, data := "/*",
                        positionStart := 0, positionEnd := 2 }] },
         { kind := LineKind.touched
           text := "*/"
           lineTerminator := ""
           tokens := [{ kind := LineTokenKind.multilineCommentEnd, data := "*/",
                        positionStart := 0, positionEnd := 2 }] }] }

/-- The flat start fragment of `c5Flattened`. -/
def c5Start : FlatLineToken :=
  { kind := LineTokenKind.multilineCommentStart
    data := "/*"
    positionStart := { codeUnit := 0, lineCodeUnit := 0, lineNumber := 0 }
    positionEnd := { codeUnit := 2, lineCodeUnit := 2, lineNumber := 0 }
    flatIndex := 0 }

/-- The flat end fragment of `c5Flattened`. -/
def c5End : FlatLineToken :=
  { kind := LineTokenKind.multilineCommentEnd
    data := "*/"
    positionStart := { codeUnit := 3, lineCodeUnit := 0, lineNumber := 1 }
    positionEnd := { codeUnit := 5, lineCodeUnit := 2, lineNumber := 1 }
    flatIndex := 1 }

/-- C5 witness: one loop iteration over the concrete two-fragment comment
run emits exactly the one multiline comment and resumes after the end
fragment. -/
theorem c5_witness :
    factoryLoop c5Flattened 2 0 [] []
      = factoryLoop c5Flattened 1 (c5End.flatIndex + 1)
          ([] ++ multiEmitTokens MultiKind.comment c5Flattened c5Start c5End)
          ([] ++ multiEmitComments MultiKind.comment c5Flattened c5Start c5End) :=
  c5_stitch_single_result c5Flattened MultiKind.comment 1 0 [] [] c5Start c5End [] []
    (by rfl) (by rfl) (by rfl) (by rfl) (by intro c hc; simp at hc) (by rfl)

/-! ## Well-formed fragment streams and claim C10 -/

/-- Fragment-pairing well-formedness of a flat token stream: every content
or end fragment occurs only inside a contiguous run begun by its matching
start fragment — either a complete run closed by the matching end kind, or
an unterminated run reaching the end of the stream. -/
inductive WFStream : List FlatLineToken → Prop where
  | nil : WFStream []
  | plain (t : FlatLineToken) (rest : List FlatLineToken) :
      isStartKind t.kind = false → isContentEndKind t.kind = false →
      WFStream rest → WFStream (t :: rest)
  | run (mk : MultiKind) (s : FlatLineToken) (contents : List FlatLineToken)
      (e : FlatLineToken) (rest : List FlatLineToken) :
      s.kind = startKindOf mk → (∀ c ∈ contents, c.kind = contentKindOf mk) →
      e.kind = endKindOf mk → WFStream rest →
      WFStream (s :: (contents ++ e :: rest))
  | tail (mk : MultiKind) (s : FlatLineToken) (contents : List FlatLineToken) :
      s.kind = startKindOf mk → (∀ c ∈ contents, c.kind = contentKindOf mk) →
      WFStream (s :: contents)

theorem factoryLoop_zero (fl : FlattenedLines) (flatIndex : Nat)
    (toks : List Token) (coms : List TComment) :
    factoryLoop fl 0 flatIndex toks coms = Except.ok (toks, coms) := rfl

theorem factoryLoop_none (fl : FlattenedLines) (fuel flatIndex : Nat)
    (toks : List Token) (coms : List TComment)
    (hget : fl.flatLineTokens.get? flatIndex = none) :
    factoryLoop fl (fuel + 1) flatIndex toks coms = Except.ok (toks, coms) := by
  rw [List.get?_eq_getElem?] at hget
  simp [factoryLoop, hget]

theorem get?_eq_head?_drop {α : Type} (l : List α) (i : Nat) :
    l.get? i = (l.drop i).head? := by
  rw [← List.get?_zero, List.get?_drop, Nat.add_zero]

theorem nonStartEmitTokens_valid (t : FlatLineToken)
    (h1 : isStartKind t.kind = false) (h2 : isContentEndKind t.kind = false) :
    ∀ tok ∈ nonStartEmitTokens t, tok.kind.isSome = true := by
  obtain ⟨tk, td, tps, tpe, tfi⟩ := t
  cases tk <;>
    simp_all [isStartKind, isContentEndKind, nonStartEmitTokens, lineTokenKindToTokenKind]

theorem multiEmitTokens_valid (mk : MultiKind) (fl : FlattenedLines)
    (s endTok : FlatLineToken) :
    ∀ tok ∈ multiEmitTokens mk fl s endTok, tok.kind.isSome = true := by
  cases mk <;> simp [multiEmitTokens]

/-- Facts extracted when the stream at `flatIndex` opens a complete run. -/
theorem run_layout (fl : FlattenedLines)
    (hcoh : ∀ i t, fl.flatLineTokens.get? i = some t → t.flatIndex = i)
    (flatIndex : Nat) (s e : FlatLineToken) (contents rest : List FlatLineToken)
    (hstream : fl.flatLineTokens.drop flatIndex = s :: (contents ++ e :: rest)) :
    fl.flatLineTokens.get? flatIndex = some s ∧
    s.flatIndex = flatIndex ∧
    fl.flatLineTokens.drop (flatIndex + 1) = contents ++ e :: rest ∧
    e.flatIndex = flatIndex + contents.length + 1 ∧
    fl.flatLineTokens.drop (e.flatIndex + 1) = rest ∧
    fl.flatLineTokens.get? (flatIndex + 1 + contents.length) = some e := by
  have hget : fl.flatLineTokens.get? flatIndex = some s := by
    rw [get?_eq_head?_drop, hstream]; rfl
  have hsfi : s.flatIndex = flatIndex := hcoh flatIndex s hget
  have hdrop1 : fl.flatLineTokens.drop (flatIndex + 1) = contents ++ e :: rest := by
    rw [← List.tail_drop, hstream]
    rfl
  have hgete : fl.flatLineTokens.get? (flatIndex + 1 + contents.length) = some e := by
    rw [← List.get?_drop, hdrop1, List.get?_append_right (Nat.le_refl _), Nat.sub_self]
    rfl
  have hefi : e.flatIndex = flatIndex + contents.length + 1 := by
    have := hcoh _ e hgete
    omega
  refine ⟨hget, hsfi, hdrop1, hefi, ?_, hgete⟩
  have : fl.flatLineTokens.drop (flatIndex + 1 + (contents.length + 1))
      = rest := by
    rw [← List.drop_drop, hdrop1,
      show contents ++ e :: rest = (contents ++ [e]) ++ rest by simp,
      show contents.length + 1 = (contents ++ [e]).length by simp]
    exact List.drop_left _ _
  rw [hefi, show flatIndex + contents.length + 1 + 1
    = flatIndex + 1 + (contents.length + 1) from by omega]
  exact this

/-- When the stream at `flatIndex` opens an unterminated run reaching the
end of the stream, the iteration throws the unterminated-token error. -/
theorem factoryLoop_tail_error (fl : FlattenedLines) (fuel flatIndex : Nat)
    (toks : List Token) (coms : List TComment) (t : FlatLineToken) (mk : MultiKind)
    (contents : List FlatLineToken)
    (hget : fl.flatLineTokens.get? flatIndex = some t)
    (hs : t.kind = startKindOf mk)
    (hcs : ∀ c ∈ contents, c.kind = contentKindOf mk)
    (hdrop1 : fl.flatLineTokens.drop (t.flatIndex + 1) = contents) :
    factoryLoop fl (fuel + 1) flatIndex toks coms
      = Except.error (TInnerException.lexer (TInnerLexerError.unterminatedMultilineToken
          (LexerSnapshot.graphemePositionStartFrom fl.text fl.lineTerminators
            t.positionStart t.positionEnd)
          (errKindOf mk))) := by
  refine factoryLoop_step_start_error fl fuel flatIndex toks coms t _ mk hget hs ?_ ?_ ?_
  · intro hmk; subst hmk
    exact readMultilineComment_unterminated fl t contents hdrop1
      (by simpa [contentKindOf] using hcs)
  · intro hmk; subst hmk
    exact readQuotedIdentifier_unterminated fl t contents hdrop1
      (by simpa [contentKindOf] using hcs)
  · intro hmk; subst hmk
    exact readStringLiteral_unterminated fl t contents hdrop1
      (by simpa [contentKindOf] using hcs)

/-- Master lemma for C10: along a well-formed stream, every token the loop
appends has a kind inside the single-line subset (`isSome` cast). -/
theorem factoryLoop_valid (fl : FlattenedLines)
    (hcoh : ∀ i t, fl.flatLineTokens.get? i = some t → t.flatIndex = i) :
    ∀ (fuel flatIndex : Nat) (toks : List Token) (coms : List TComment)
      (res : List Token × List TComment),
      WFStream (fl.flatLineTokens.drop flatIndex) →
      (∀ t ∈ toks, t.kind.isSome = true) →
      factoryLoop fl fuel flatIndex toks coms = Except.ok res →
      ∀ t ∈ res.1, t.kind.isSome = true := by
  intro fuel
  induction fuel with
  | zero =>
    intro flatIndex toks coms res _ hvalid heq
    rw [factoryLoop_zero, Except.ok.injEq] at heq
    rw [← heq]
    exact hvalid
  | succ fuel ih =>
    intro flatIndex toks coms res hwf hvalid heq
    cases hget : fl.flatLineTokens.get? flatIndex with
    | none =>
      rw [factoryLoop_none fl fuel flatIndex toks coms hget, Except.ok.injEq] at heq
      rw [← heq]
      exact hvalid
    | some t =>
      generalize hstream : fl.flatLineTokens.drop flatIndex = stream at hwf
      cases hwf with
      | nil =>
        rw [get?_eq_head?_drop, hstream] at hget
        simp at hget
      | plain t' rest hns hnce hwrest =>
        have ht' : t = t' := by
          rw [get?_eq_head?_drop, hstream] at hget
          simpa using hget.symm
        subst ht'
        rw [factoryLoop_step_nonstart fl fuel flatIndex toks coms t hget hns] at heq
        refine ih (flatIndex + 1) _ _ res ?_ ?_ heq
        · rw [← List.tail_drop, hstream]
          exact hwrest
        · intro u hu
          rcases List.mem_append.mp hu with hu1 | hu2
          · exact hvalid u hu1
          · exact nonStartEmitTokens_valid t hns hnce u hu2
      | run mk s contents e rest hs hcs he hwrest =>
        obtain ⟨hget_s, hsfi, hdrop1, hefi, hdrope, hgete⟩ :=
          run_layout fl hcoh flatIndex s e contents rest hstream
        have hts : t = s := by
          rw [hget] at hget_s
          exact (Option.some.injEq _ _).mp hget_s
        subst hts
        rw [factoryLoop_step_run fl mk fuel flatIndex toks coms t e contents rest
          hget hsfi hdrop1 hs hcs he] at heq
        refine ih (e.flatIndex + 1) _ _ res ?_ ?_ heq
        · rw [hdrope]
          exact hwrest
        · intro u hu
          rcases List.mem_append.mp hu with hu1 | hu2
          · exact hvalid u hu1
          · exact multiEmitTokens_valid mk fl t e u hu2
      | tail mk s contents hs hcs =>
        have hts : t = s := by
          rw [get?_eq_head?_drop, hstream] at hget
          simpa using hget.symm
        subst hts
        have hsfi : t.flatIndex = flatIndex := hcoh flatIndex t hget
        have hdrop1 : fl.flatLineTokens.drop (t.flatIndex + 1) = contents := by
          rw [hsfi, ← List.tail_drop, hstream]
          rfl
        rw [factoryLoop_tail_error fl fuel flatIndex toks coms t mk contents hget hs hcs
          hdrop1] at heq
        simp at heq

/-- C10: under the fragment-pairing precondition on the flat token stream,
every token of a snapshot `tryFrom` returns carries a valid `TokenKind` —
the unchecked cast of the default stitching branch is applied only to kinds
of the single-line subset. -/
theorem c10_valid_token_kinds (state : State)
    (hwf : WFStream (flattenLineTokens state).flatLineTokens)
    (snap : LexerSnapshot) (h : LexerSnapshot.tryFrom state = Result.Ok snap) :
    ∀ t ∈ snap.tokens, t.kind.isSome = true := by
  have hfac := (tryFrom_ok_iff state snap).mp h
  simp only [LexerSnapshot.factory] at hfac
  cases hl : factoryLoop (flattenLineTokens state)
      ((flattenLineTokens state).flatLineTokens.length + 1) 0 [] [] with
  | error e => rw [hl] at hfac; simp at hfac
  | ok pr =>
    obtain ⟨toks, coms⟩ := pr
    rw [hl] at hfac
    simp only [Except.ok.injEq] at hfac
    have hsnap : snap.tokens = toks := by rw [← hfac]
    rw [hsnap]
    intro t ht
    refine factoryLoop_valid (flattenLineTokens state)
      (flattenLineTokens_coherent state) _ 0 [] [] (toks, coms) ?_ (by simp) hl t ht
    rw [List.drop_zero]
    exact hwf

/-- State holding an identifier and a two-fragment string literal. -/
def c10State : State :=
  { lines :=
      [{ kind := LineKind.touched
         text := "a\""
         lineTerminator := "\n"
         tokens := [{ kind := LineTokenKind.identifier, data := "a",
                      positionStart := 0, positionEnd := 1 },
                    { kind := LineTokenKind.stringLiteralStart, data := "\"",
                      positionStart := 1, positionEnd := 2 }] },
       { kind := LineKind.touched
         text := "\""
         lineTerminator := ""
         tokens := [{ kind := LineTokenKind.stringLiteralEnd, data := "\"",
                      positionStart := 0, positionEnd := 1 }] }] }

/-- Snapshot that `tryFrom` produces for `c10State`. -/
def c10Snapshot : LexerSnapshot :=
  { text := "a\"\n\""
    tokens :=
      [{ kind := some TokenKind.identifier, data := "a"
         positionStart := { codeUnit := 0, lineCodeUnit := 0, lineNumber := 0 }
         positionEnd := { codeUnit := 1, lineCodeUnit := 1, lineNumber := 0 } },
       { kind := some TokenKind.stringLiteral, data := "\"\n\""
         positionStart := { codeUnit := 1, lineCodeUnit := 1, lineNumber := 0 }
         positionEnd := { codeUnit := 4, lineCodeUnit := 1, lineNumber := 1 } }]
    comments := []
    lineTerminators := [{ codeUnit := 2, text := "\n" }, { codeUnit := 4, text := "" }] }

/-- C10 witness: the validity theorem applied to the concrete state with a
complete string-literal run. -/
theorem c10_witness : (c10Snapshot.tokens.all fun t => t.kind.isSome) = true := by
  have h := c10_valid_token_kinds c10State
    (WFStream.plain _ _ rfl rfl
      (WFStream.run MultiKind.string _ [] _ [] rfl (by intro c hc; simp at hc) rfl
        WFStream.nil))
    c10Snapshot (by rfl)
  exact List.all_eq_true.mpr h

/-! ## Span ordering and claim C8 -/

/-- Half-open span of a token, in absolute code units. -/
def tokenSpan (t : Token) : Nat × Nat :=
  (t.positionStart.codeUnit, t.positionEnd.codeUnit)

/-- Half-open span of a comment, in absolute code units. -/
def commentSpan (c : TComment) : Nat × Nat :=
  (c.positionStart.codeUnit, c.positionEnd.codeUnit)

/-- Span `a` lies strictly before span `b` and does not overlap it. -/
def spanRel (a b : Nat × Nat) : Prop := a.1 < b.1 ∧ a.2 ≤ b.1

/-- A span list is sorted, strictly increasing and non-overlapping, with
every span nonempty and ending at or before `bound`. -/
def SpansOk (l : List (Nat × Nat)) (bound : Nat) : Prop :=
  List.Pairwise spanRel l ∧ ∀ a ∈ l, a.1 < a.2 ∧ a.2 ≤ bound

/-- Every span of `A` is ordered against every span of `B`, one way or the
other. -/
def CrossOk (A B : List (Nat × Nat)) : Prop :=
  ∀ a ∈ A, ∀ b ∈ B, spanRel a b ∨ spanRel b a

/-- Loop invariant of the stitching walk: both accumulator lists are
sorted and non-overlapping, mutually ordered, and bounded by `bound`. -/
structure StitchInv (toks : List Token) (coms : List TComment) (bound : Nat) : Prop where
  toksOk : SpansOk (toks.map tokenSpan) bound
  comsOk : SpansOk (coms.map commentSpan) bound
  cross : CrossOk (toks.map tokenSpan) (coms.map commentSpan)

theorem spansOk_mono (l : List (Nat × Nat)) (bound bound' : Nat)
    (h : SpansOk l bound) (hb : bound ≤ bound') : SpansOk l bound' :=
  ⟨h.1, fun a ha => ⟨(h.2 a ha).1, Nat.le_trans (h.2 a ha).2 hb⟩⟩

theorem spansOk_append (l : List (Nat × Nat)) (bound s e : Nat)
    (h : SpansOk l bound) (hbs : bound ≤ s) (hse : s < e) :
    SpansOk (l ++ [(s, e)]) e := by
  constructor
  · rw [List.pairwise_append]
    refine ⟨h.1, List.pairwise_singleton _ _, ?_⟩
    intro a ha b hb
    rw [List.mem_singleton] at hb
    subst hb
    obtain ⟨hw, hb'⟩ := h.2 a ha
    exact ⟨by omega, by omega⟩
  · intro a ha
    rcases List.mem_append.mp ha with ha1 | ha2
    · obtain ⟨hw, hb'⟩ := h.2 a ha1
      exact ⟨hw, by omega⟩
    · rw [List.mem_singleton] at ha2
      subst ha2
      exact ⟨hse, Nat.le_refl e⟩

theorem crossOk_append_right (A B : List (Nat × Nat)) (bound s e : Nat)
    (hA : SpansOk A bound) (hc : CrossOk A B) (hbs : bound ≤ s) :
    CrossOk A (B ++ [(s, e)]) := by
  intro a ha b hb
  rcases List.mem_append.mp hb with hb1 | hb2
  · exact hc a ha b hb1
  · rw [List.mem_singleton] at hb2
    subst hb2
    obtain ⟨hw, hb'⟩ := hA.2 a ha
    exact Or.inl ⟨by omega, by omega⟩

theorem crossOk_append_left (A B : List (Nat × Nat)) (bound s e : Nat)
    (hB : SpansOk B bound) (hc : CrossOk A B) (hbs : bound ≤ s) :
    CrossOk (A ++ [(s, e)]) B := by
  intro a ha b hb
  rcases List.mem_append.mp ha with ha1 | ha2
  · exact hc a ha1 b hb
  · rw [List.mem_singleton] at ha2
    subst ha2
    obtain ⟨hw, hb'⟩ := hB.2 b hb
    exact Or.inr ⟨by omega, by omega⟩

/-- Extending the invariant by one emission covering `[s, e)` with
`bound ≤ s < e`: either one comment, or one token, is appended. -/
theorem stitchInv_emit (toks : List Token) (coms : List TComment) (bound s e : Nat)
    (newToks : List Token) (newComs : List TComment)
    (hinv : StitchInv toks coms bound) (hbs : bound ≤ s) (hse : s < e)
    (hemit :
      (newToks.map tokenSpan = [] ∧ newComs.map commentSpan = [(s, e)]) ∨
      (newToks.map tokenSpan = [(s, e)] ∧ newComs.map commentSpan = [])) :
    StitchInv (toks ++ newToks) (coms ++ newComs) e := by
  have hbe : bound ≤ e := by omega
  rcases hemit with ⟨ht, hcm⟩ | ⟨ht, hcm⟩
  · exact
      { toksOk := by
          rw [List.map_append, ht, List.append_nil]
          exact spansOk_mono _ bound e hinv.toksOk hbe
        comsOk := by
          rw [List.map_append, hcm]
          exact spansOk_append _ bound s e hinv.comsOk hbs hse
        cross := by
          rw [List.map_append, ht, List.append_nil, List.map_append, hcm]
          exact crossOk_append_right _ _ bound s e hinv.toksOk hinv.cross hbs }
  · exact
      { toksOk := by
          rw [List.map_append, ht]
          exact spansOk_append _ bound s e hinv.toksOk hbs hse
        comsOk := by
          rw [List.map_append, hcm, List.append_nil]
          exact spansOk_mono _ bound e hinv.comsOk hbe
        cross := by
          rw [List.map_append, ht, List.map_append, hcm, List.append_nil]
          exact crossOk_append_left _ _ bound s e hinv.comsOk hinv.cross hbs }

theorem nonStartEmit_spans (t : FlatLineToken) :
    ((nonStartEmitTokens t).map tokenSpan = [] ∧
      (nonStartEmitComments t).map commentSpan
        = [(t.positionStart.codeUnit, t.positionEnd.codeUnit)]) ∨
    ((nonStartEmitTokens t).map tokenSpan
        = [(t.positionStart.codeUnit, t.positionEnd.codeUnit)] ∧
      (nonStartEmitComments t).map commentSpan = []) := by
  obtain ⟨tk, td, tps, tpe, tfi⟩ := t
  cases tk <;>
    simp [nonStartEmitTokens, nonStartEmitComments, tokenSpan, commentSpan,
      readLineComment, readSingleLineMultilineComment]

theorem multiEmit_spans (mk : MultiKind) (fl : FlattenedLines) (s e : FlatLineToken) :
    ((multiEmitTokens mk fl s e).map tokenSpan = [] ∧
      (multiEmitComments mk fl s e).map commentSpan
        = [(s.positionStart.codeUnit, e.positionEnd.codeUnit)]) ∨
    ((multiEmitTokens mk fl s e).map tokenSpan
        = [(s.positionStart.codeUnit, e.positionEnd.codeUnit)] ∧
      (multiEmitComments mk fl s e).map commentSpan = []) := by
  cases mk <;> simp [multiEmitTokens, multiEmitComments, tokenSpan, commentSpan]

/-- Read a pairwise relation off two positions of the list. -/
theorem pairwise_get? {α : Type} {R : α → α → Prop} {l : List α}
    (h : List.Pairwise R l) {i j : Nat} {a b : α} (hij : i < j)
    (ha : l.get? i = some a) (hb : l.get? j = some b) : R a b := by
  obtain ⟨hi, ha'⟩ := List.get?_eq_some.mp ha
  obtain ⟨hj, hb'⟩ := List.get?_eq_some.mp hb
  have := List.pairwise_iff_get.mp h ⟨i, hi⟩ ⟨j, hj⟩ hij
  rw [ha', hb'] at this
  exact this

/-- Absolute separation of the flat token stream: earlier tokens end at or
before later tokens start. -/
def StreamSep (ts : List FlatLineToken) : Prop :=
  List.Pairwise (fun a b => a.positionEnd.codeUnit ≤ b.positionStart.codeUnit) ts

/-- Every flat token has a nonempty span. -/
def StreamWidths (ts : List FlatLineToken) : Prop :=
  ∀ t ∈ ts, t.positionStart.codeUnit < t.positionEnd.codeUnit

/-- Per-line well-formedness of a lexer state, formalizing the spec's line
invariants used by the order claim: within each line the tokens are chained
(`positionEnd ≤` next `positionStart`), each token is a nonempty span, and
tokens end within the line's text. -/
def PerLineInvariants (state : State) : Prop :=
  ∀ line ∈ state.lines,
    List.Chain' (fun a b => a.positionEnd ≤ b.positionStart) line.tokens ∧
    ∀ t ∈ line.tokens, t.positionStart < t.positionEnd ∧ t.positionEnd ≤ strLen line.text

theorem chain'_pairwise_line (toks : List LineToken)
    (hchain : List.Chain' (fun a b => a.positionEnd ≤ b.positionStart) toks)
    (hw : ∀ t ∈ toks, t.positionStart < t.positionEnd) :
    List.Pairwise (fun a b => a.positionEnd ≤ b.positionStart) toks := by
  induction toks with
  | nil => exact List.Pairwise.nil
  | cons t rest ih =>
    have hrest := ih hchain.tail (fun u hu => hw u (List.mem_cons_of_mem t hu))
    refine List.Pairwise.cons ?_ hrest
    intro z hz
    cases rest with
    | nil => simp at hz
    | cons r rs =>
      have hhead : t.positionEnd ≤ r.positionStart := List.chain'_cons.mp hchain |>.1
      rcases List.mem_cons.mp hz with hz1 | hz2
      · subst hz1
        exact hhead
      · have hr := List.rel_of_pairwise_cons hrest hz2
        have hwr := hw r (List.mem_cons_of_mem t (List.mem_cons_self r rs))
        omega

theorem flattenTokensAux_facts (toks : List LineToken)
    (lineNumber lineTextOffset flatIndex lineLen : Nat)
    (hchain : List.Chain' (fun a b => a.positionEnd ≤ b.positionStart) toks)
    (hwb : ∀ t ∈ toks, t.positionStart < t.positionEnd ∧ t.positionEnd ≤ lineLen) :
    StreamSep (flattenTokensAux lineNumber lineTextOffset toks flatIndex) ∧
    (∀ t ∈ flattenTokensAux lineNumber lineTextOffset toks flatIndex,
      lineTextOffset ≤ t.positionStart.codeUnit ∧
      t.positionStart.codeUnit < t.positionEnd.codeUnit ∧
      t.positionEnd.codeUnit ≤ lineTextOffset + lineLen) := by
  have hpl := chain'_pairwise_line toks hchain (fun t ht => (hwb t ht).1)
  constructor
  · rw [StreamSep, List.pairwise_iff_get]
    intro i j hij
    have hlen := flattenTokensAux_length toks lineNumber lineTextOffset flatIndex
    have hi : i.val < toks.length := by
      have h0 := i.isLt
      omega
    have hj : j.val < toks.length := by
      have h0 := j.isLt
      omega
    obtain ⟨ti, hti⟩ : ∃ ti, toks.get? i.val = some ti := by
      rw [List.get?_eq_get hi]; exact ⟨_, rfl⟩
    obtain ⟨tj, htj⟩ : ∃ tj, toks.get? j.val = some tj := by
      rw [List.get?_eq_get hj]; exact ⟨_, rfl⟩
    have hrel : ti.positionEnd ≤ tj.positionStart := pairwise_get? hpl hij hti htj
    have egi : (flattenTokensAux lineNumber lineTextOffset toks flatIndex).get i
        = { kind := ti.kind
            data := ti.data
            positionStart :=
              { codeUnit := lineTextOffset + ti.positionStart
                lineCodeUnit := ti.positionStart
                lineNumber := lineNumber }
            positionEnd :=
              { codeUnit := lineTextOffset + ti.positionEnd
                lineCodeUnit := ti.positionEnd
                lineNumber := lineNumber }
            flatIndex := flatIndex + i.val } := by
      have h2 := flattenTokensAux_get? toks lineNumber lineTextOffset flatIndex i.val
      rw [hti, List.get?_eq_get i.isLt] at h2
      simpa using h2
    have egj : (flattenTokensAux lineNumber lineTextOffset toks flatIndex).get j
        = { kind := tj.kind
            data := tj.data
            positionStart :=
              { codeUnit := lineTextOffset + tj.positionStart
                lineCodeUnit := tj.positionStart
                lineNumber := lineNumber }
            positionEnd :=
              { codeUnit := lineTextOffset + tj.positionEnd
                lineCodeUnit := tj.positionEnd
                lineNumber := lineNumber }
            flatIndex := flatIndex + j.val } := by
      have h2 := flattenTokensAux_get? toks lineNumber lineTextOffset flatIndex j.val
      rw [htj, List.get?_eq_get j.isLt] at h2
      simpa using h2
    rw [egi, egj]
    dsimp only
    omega
  · intro t ht
    obtain ⟨i, hi⟩ := List.mem_iff_get?.mp ht
    have hi' := flattenTokensAux_get? toks lineNumber lineTextOffset flatIndex i
    rw [hi] at hi'
    cases htoks : toks.get? i with
    | none => rw [htoks] at hi'; simp at hi'
    | some tok =>
      rw [htoks] at hi'
      simp only [Option.map_some', Option.some.injEq] at hi'
      obtain ⟨hw1, hw2⟩ := hwb tok (List.get?_mem htoks)
      subst hi'
      dsimp only
      omega

theorem flattenAux_sep_wid :
    ∀ (lines : List Line) (lineNumber lineTextOffset flatIndex : Nat),
      (∀ line ∈ lines,
        List.Chain' (fun a b => a.positionEnd ≤ b.positionStart) line.tokens ∧
        ∀ t ∈ line.tokens, t.positionStart < t.positionEnd ∧
          t.positionEnd ≤ strLen line.text) →
      StreamSep (flattenAux lines lineNumber lineTextOffset flatIndex).flatLineTokens ∧
      (∀ t ∈ (flattenAux lines lineNumber lineTextOffset flatIndex).flatLineTokens,
        lineTextOffset ≤ t.positionStart.codeUnit ∧
        t.positionStart.codeUnit < t.positionEnd.codeUnit) := by
  intro lines
  induction lines with
  | nil =>
    intro _ _ _ _
    exact ⟨List.Pairwise.nil, by intro t ht; simp [flattenAux] at ht⟩
  | cons l rest ih =>
    intro lineNumber lineTextOffset flatIndex hinv
    obtain ⟨hchain, hwb⟩ := hinv l (List.mem_cons_self l rest)
    obtain ⟨hsepA, hfactsA⟩ := flattenTokensAux_facts l.tokens lineNumber lineTextOffset
      flatIndex (strLen l.text) hchain hwb
    obtain ⟨hsepB, hfactsB⟩ := ih (lineNumber + 1)
      (lineTextOffset + strLen l.text + strLen l.lineTerminator)
      (flatIndex + l.tokens.length)
      (fun line hline => hinv line (List.mem_cons_of_mem l hline))
    constructor
    · show List.Pairwise _ (_ ++ _)
      rw [List.pairwise_append]
      refine ⟨hsepA, hsepB, ?_⟩
      intro a ha b hb
      have h1 := (hfactsA a ha).2.2
      have h2 := (hfactsB b hb).1
      omega
    · intro t ht
      rcases List.mem_append.mp ht with ht1 | ht2
      · have := hfactsA t ht1
        omega
      · have := hfactsB t ht2
        omega

/-- Merge two span lists by their start offsets (stable: ties take the
left list first). -/
def mergeSpans : List (Nat × Nat) → List (Nat × Nat) → List (Nat × Nat)
  | [], ys => ys
  | x :: xs, [] => x :: xs
  | x :: xs, y :: ys =>
    if x.1 ≤ y.1 then x :: mergeSpans xs (y :: ys)
    else y :: mergeSpans (x :: xs) ys
termination_by xs ys => xs.length + ys.length

theorem mergeSpans_nil_left (ys : List (Nat × Nat)) : mergeSpans [] ys = ys := by
  simp [mergeSpans]

theorem mergeSpans_nil_right (xs : List (Nat × Nat)) : mergeSpans xs [] = xs := by
  cases xs <;> simp [mergeSpans]

theorem mergeSpans_cons_le (x y : Nat × Nat) (xs ys : List (Nat × Nat)) (h : x.1 ≤ y.1) :
    mergeSpans (x :: xs) (y :: ys) = x :: mergeSpans xs (y :: ys) := by
  simp [mergeSpans, h]

theorem mergeSpans_cons_gt (x y : Nat × Nat) (xs ys : List (Nat × Nat)) (h : ¬ x.1 ≤ y.1) :
    mergeSpans (x :: xs) (y :: ys) = y :: mergeSpans (x :: xs) ys := by
  simp [mergeSpans, h]

theorem mergeSpans_mem_aux :
    ∀ (n : Nat) (xs ys : List (Nat × Nat)), xs.length + ys.length ≤ n →
      ∀ z ∈ mergeSpans xs ys, z ∈ xs ∨ z ∈ ys := by
  intro n
  induction n with
  | zero =>
    intro xs ys hn z hz
    cases xs with
    | nil => rw [mergeSpans_nil_left] at hz; exact Or.inr hz
    | cons x xs' => simp at hn
  | succ n ih =>
    intro xs ys hn z hz
    cases xs with
    | nil => rw [mergeSpans_nil_left] at hz; exact Or.inr hz
    | cons x xs' =>
      cases ys with
      | nil => rw [mergeSpans_nil_right] at hz; exact Or.inl hz
      | cons y ys' =>
        by_cases h : x.1 ≤ y.1
        · rw [mergeSpans_cons_le x y xs' ys' h] at hz
          rcases List.mem_cons.mp hz with hz1 | hz2
          · exact Or.inl (by rw [hz1]; exact List.mem_cons_self x xs')
          · rcases ih xs' (y :: ys') (by simp at hn ⊢; omega) z hz2 with h1 | h2
            · exact Or.inl (List.mem_cons_of_mem x h1)
            · exact Or.inr h2
        · rw [mergeSpans_cons_gt x y xs' ys' h] at hz
          rcases List.mem_cons.mp hz with hz1 | hz2
          · exact Or.inr (by rw [hz1]; exact List.mem_cons_self y ys')
          · rcases ih (x :: xs') ys' (by simp at hn ⊢; omega) z hz2 with h1 | h2
            · exact Or.inl h1
            · exact Or.inr (List.mem_cons_of_mem y h2)

theorem mergeSpans_mem (xs ys : List (Nat × Nat)) (z : Nat × Nat)
    (hz : z ∈ mergeSpans xs ys) : z ∈ xs ∨ z ∈ ys :=
  mergeSpans_mem_aux (xs.length + ys.length) xs ys (Nat.le_refl _) z hz

theorem mergeSpans_pairwise_aux :
    ∀ (n : Nat) (xs ys : List (Nat × Nat)), xs.length + ys.length ≤ n →
      List.Pairwise spanRel xs → List.Pairwise spanRel ys →
      (∀ a ∈ xs, ∀ b ∈ ys, spanRel a b ∨ spanRel b a) →
      List.Pairwise spanRel (mergeSpans xs ys) := by
  intro n
  induction n with
  | zero =>
    intro xs ys hn hx hy hc
    cases xs with
    | nil => rw [mergeSpans_nil_left]; exact hy
    | cons x xs' => simp at hn
  | succ n ih =>
    intro xs ys hn hx hy hc
    cases xs with
    | nil => rw [mergeSpans_nil_left]; exact hy
    | cons x xs' =>
      cases ys with
      | nil => rw [mergeSpans_nil_right]; exact hx
      | cons y ys' =>
        by_cases h : x.1 ≤ y.1
        · rw [mergeSpans_cons_le x y xs' ys' h]
          refine List.Pairwise.cons ?_ (ih xs' (y :: ys') (by simp at hn ⊢; omega)
            (List.Pairwise.of_cons hx) hy
            (fun a ha b hb => hc a (List.mem_cons_of_mem x ha) b hb))
          intro z hz
          rcases mergeSpans_mem xs' (y :: ys') z hz with h1 | h2
          · exact List.rel_of_pairwise_cons hx h1
          · rcases hc x (List.mem_cons_self x xs') z h2 with hxz | hzx
            · exact hxz
            · exfalso
              obtain ⟨hzx1, hzx2⟩ := hzx
              rcases List.mem_cons.mp h2 with hzy | hzys
              · rw [hzy] at hzx1
                omega
              · obtain ⟨hyz1, hyz2⟩ := List.rel_of_pairwise_cons hy hzys
                omega
        · rw [mergeSpans_cons_gt x y xs' ys' h]
          refine List.Pairwise.cons ?_ (ih (x :: xs') ys' (by simp at hn ⊢; omega)
            hx (List.Pairwise.of_cons hy)
            (fun a ha b hb => hc a ha b (List.mem_cons_of_mem y hb)))
          intro z hz
          rcases mergeSpans_mem (x :: xs') ys' z hz with h1 | h2
          · rcases hc z h1 y (List.mem_cons_self y ys') with hzy | hyz
            · exfalso
              obtain ⟨hzy1, hzy2⟩ := hzy
              rcases List.mem_cons.mp h1 with hzx | hzxs
              · rw [hzx] at hzy1
                omega
              · obtain ⟨hxz1, hxz2⟩ := List.rel_of_pairwise_cons hx hzxs
                omega
            · exact hyz
          · exact List.rel_of_pairwise_cons hy h2

theorem mergeSpans_pairwise (xs ys : List (Nat × Nat))
    (hx : List.Pairwise spanRel xs) (hy : List.Pairwise spanRel ys)
    (hc : ∀ a ∈ xs, ∀ b ∈ ys, spanRel a b ∨ spanRel b a) :
    List.Pairwise spanRel (mergeSpans xs ys) :=
  mergeSpans_pairwise_aux (xs.length + ys.length) xs ys (Nat.le_refl _) hx hy hc

/-- Master lemma for C8: along a well-formed, separated stream of nonempty
spans, the stitching loop keeps both accumulator lists sorted,
non-overlapping and mutually ordered. -/
theorem factoryLoop_ordered (fl : FlattenedLines)
    (hcoh : ∀ i t, fl.flatLineTokens.get? i = some t → t.flatIndex = i)
    (hsep : StreamSep fl.flatLineTokens)
    (hwid : StreamWidths fl.flatLineTokens) :
    ∀ (fuel flatIndex : Nat) (toks : List Token) (coms : List TComment) (bound : Nat)
      (res : List Token × List TComment),
      WFStream (fl.flatLineTokens.drop flatIndex) →
      (∀ k t, flatIndex ≤ k → fl.flatLineTokens.get? k = some t →
        bound ≤ t.positionStart.codeUnit) →
      StitchInv toks coms bound →
      factoryLoop fl fuel flatIndex toks coms = Except.ok res →
      ∃ bound', StitchInv res.1 res.2 bound' := by
  intro fuel
  induction fuel with
  | zero =>
    intro flatIndex toks coms bound res _ _ hinv heq
    rw [factoryLoop_zero, Except.ok.injEq] at heq
    exact ⟨bound, by rw [← heq]; exact hinv⟩
  | succ fuel ih =>
    intro flatIndex toks coms bound res hwf hbb hinv heq
    cases hget : fl.flatLineTokens.get? flatIndex with
    | none =>
      rw [factoryLoop_none fl fuel flatIndex toks coms hget, Except.ok.injEq] at heq
      exact ⟨bound, by rw [← heq]; exact hinv⟩
    | some t =>
      have hwt := hwid t (List.get?_mem hget)
      have hbt : bound ≤ t.positionStart.codeUnit := hbb flatIndex t (Nat.le_refl _) hget
      generalize hstream : fl.flatLineTokens.drop flatIndex = stream at hwf
      cases hwf with
      | nil =>
        rw [get?_eq_head?_drop, hstream] at hget
        simp at hget
      | plain t' rest hns hnce hwrest =>
        have hts : t = t' := by
          rw [get?_eq_head?_drop, hstream] at hget
          simpa using hget.symm
        subst hts
        rw [factoryLoop_step_nonstart fl fuel flatIndex toks coms t hget hns] at heq
        refine ih (flatIndex + 1) _ _ t.positionEnd.codeUnit res ?_ ?_ ?_ heq
        · rw [← List.tail_drop, hstream]
          exact hwrest
        · intro k u hk hu
          exact pairwise_get? hsep (show flatIndex < k by omega) hget hu
        · exact stitchInv_emit toks coms bound _ _ _ _ hinv hbt hwt (nonStartEmit_spans t)
      | run mk s contents e rest hs hcs he hwrest =>
        obtain ⟨hget_s, hsfi, hdrop1, hefi, hdrope, hgete⟩ :=
          run_layout fl hcoh flatIndex s e contents rest hstream
        have hts : t = s := by
          rw [hget] at hget_s
          exact (Option.some.injEq _ _).mp hget_s
        subst hts
        have hwe := hwid e (List.get?_mem hgete)
        have hte : t.positionEnd.codeUnit ≤ e.positionStart.codeUnit :=
          pairwise_get? hsep (show flatIndex < flatIndex + 1 + contents.length by omega)
            hget hgete
        rw [factoryLoop_step_run fl mk fuel flatIndex toks coms t e contents rest hget hsfi
          hdrop1 hs hcs he] at heq
        refine ih (e.flatIndex + 1) _ _ e.positionEnd.codeUnit res ?_ ?_ ?_ heq
        · rw [hdrope]
          exact hwrest
        · intro k u hk hu
          exact pairwise_get? hsep
            (show flatIndex + 1 + contents.length < k by omega) hgete hu
        · exact stitchInv_emit toks coms bound _ _ _ _ hinv hbt (by omega)
            (multiEmit_spans mk fl t e)
      | tail mk s contents hs hcs =>
        have hts : t = s := by
          rw [get?_eq_head?_drop, hstream] at hget
          simpa using hget.symm
        subst hts
        have hsfi : t.flatIndex = flatIndex := hcoh flatIndex t hget
        have hdrop1 : fl.flatLineTokens.drop (t.flatIndex + 1) = contents := by
          rw [hsfi, ← List.tail_drop, hstream]
          rfl
        rw [factoryLoop_tail_error fl fuel flatIndex toks coms t mk contents hget hs hcs
          hdrop1] at heq
        simp at heq

/-- C8: for every state satisfying the per-line invariants and the
fragment-pairing invariant, the snapshot that `tryFrom` returns has its
tokens and comments each sorted by `positionStart.codeUnit`, and merging
the two span sequences by start offset yields a strictly increasing,
non-overlapping sequence of spans. -/
theorem c8_snapshot_order (state : State)
    (hline : PerLineInvariants state)
    (hwf : WFStream (flattenLineTokens state).flatLineTokens)
    (snap : LexerSnapshot)
    (h : LexerSnapshot.tryFrom state = Result.Ok snap) :
    List.Pairwise (fun a b => a.positionStart.codeUnit < b.positionStart.codeUnit)
      snap.tokens ∧
    List.Pairwise (fun a b => a.positionStart.codeUnit < b.positionStart.codeUnit)
      snap.comments ∧
    List.Pairwise (fun a b => a.1 < b.1 ∧ a.2 ≤ b.1)
      (mergeSpans (snap.tokens.map tokenSpan) (snap.comments.map commentSpan)) := by
  have hfac := (tryFrom_ok_iff state snap).mp h
  simp only [LexerSnapshot.factory] at hfac
  cases hl : factoryLoop (flattenLineTokens state)
      ((flattenLineTokens state).flatLineTokens.length + 1) 0 [] [] with
  | error e => rw [hl] at hfac; simp at hfac
  | ok pr =>
    obtain ⟨toks, coms⟩ := pr
    rw [hl] at hfac
    simp only [Except.ok.injEq] at hfac
    have htoks : snap.tokens = toks := by rw [← hfac]
    have hcoms : snap.comments = coms := by rw [← hfac]
    obtain ⟨hsep, hfacts⟩ := flattenAux_sep_wid state.lines 0 0 0 hline
    have hwid : StreamWidths (flattenLineTokens state).flatLineTokens := fun t ht =>
      (hfacts t ht).2
    obtain ⟨bound', hinv⟩ := factoryLoop_ordered (flattenLineTokens state)
      (flattenLineTokens_coherent state) hsep hwid
      ((flattenLineTokens state).flatLineTokens.length + 1) 0 [] [] 0 (toks, coms)
      (by rw [List.drop_zero]; exact hwf)
      (fun k t _ _ => Nat.zero_le _)
      ⟨⟨List.Pairwise.nil, by simp⟩, ⟨List.Pairwise.nil, by simp⟩,
        by intro a ha; simp at ha⟩
      hl
    refine ⟨?_, ?_, ?_⟩
    · rw [htoks]
      have hp := hinv.toksOk.1
      rw [List.pairwise_map] at hp
      exact hp.imp (fun hab => hab.1)
    · rw [hcoms]
      have hp := hinv.comsOk.1
      rw [List.pairwise_map] at hp
      exact hp.imp (fun hab => hab.1)
    · rw [htoks, hcoms]
      exact mergeSpans_pairwise _ _ hinv.toksOk.1 hinv.comsOk.1 hinv.cross

/-- C8 witness: the order theorem applied to the concrete state holding an
identifier token and a complete string-literal run. -/
theorem c8_witness :
    List.Pairwise (fun a b => a.positionStart.codeUnit < b.positionStart.codeUnit)
      c10Snapshot.tokens ∧
    List.Pairwise (fun a b => a.positionStart.codeUnit < b.positionStart.codeUnit)
      c10Snapshot.comments ∧
    List.Pairwise (fun a b => a.1 < b.1 ∧ a.2 ≤ b.1)
      (mergeSpans (c10Snapshot.tokens.map tokenSpan)
        (c10Snapshot.comments.map commentSpan)) :=
  c8_snapshot_order c10State
    (by
      intro line hline
      simp only [c10State, List.mem_cons, List.mem_singleton] at hline
      rcases hline with rfl | rfl | hline
      · exact ⟨List.Chain.cons (by decide) List.Chain.nil, by decide⟩
      · exact ⟨List.Chain.nil, by decide⟩
      · simp at hline)
    (WFStream.plain _ _ rfl rfl
      (WFStream.run MultiKind.string _ [] _ [] rfl (by intro c hc; simp at hc) rfl
        WFStream.nil))
    c10Snapshot (by rfl)

/-! ## Claim C6 -/

/-- C6: for every state, `LexerSnapshot.tryFrom` returns a `Result` value —
`Ok` carrying the snapshot built by `factory`, or `Err` carrying the
wrapped error — and no exception of `factory` propagates across the public
surface. -/
theorem c6_total_result (state : State) :
    (∃ snapshot, LexerSnapshot.tryFrom state = Result.Ok snapshot ∧
      LexerSnapshot.factory state = Except.ok snapshot) ∨
    (∃ e, LexerSnapshot.factory state = Except.error e ∧
      LexerSnapshot.tryFrom state = Result.Err (wrapException e)) := by
  cases h : LexerSnapshot.factory state with
  | ok v => exact Or.inl ⟨v, by simp [LexerSnapshot.tryFrom, h], by simp [h]⟩
  | error e => exact Or.inr ⟨e, by simp [h], by simp [LexerSnapshot.tryFrom, h]⟩

/-! ## Claim C1 -/

/-- State whose single line carries the `Error` status while still holding
lexed tokens. -/
def c1State : State :=
  { lines :=
      [{ kind := LineKind.error
         text := "abc"
         lineTerminator := ""
         tokens := [{ kind := LineTokenKind.identifier, data := "abc",
                      positionStart := 0, positionEnd := 3 }] }] }

/-- Snapshot that `tryFrom` builds out of `c1State`. -/
def c1Snapshot : LexerSnapshot :=
  { text := "abc"
    tokens := [{ kind := some TokenKind.identifier, data := "abc"
                 positionStart := { codeUnit := 0, lineCodeUnit := 0, lineNumber := 0 }
                 positionEnd := { codeUnit := 3, lineCodeUnit := 3, lineNumber := 0 } }]
    comments := []
    lineTerminators := [{ codeUnit := 3, text := "" }] }

/-- C1 counterexample: a state with a line of status `Error` for which
`LexerSnapshot.tryFrom` returns `Ok` — no error aggregation takes place, so
the claim "returns Err ... and never returns Ok" fails on the code. -/
theorem c1_counterexample :
    c1State.lines.map Line.kind = [LineKind.error] ∧
      LexerSnapshot.tryFrom c1State = Result.Ok c1Snapshot := by
  exact ⟨rfl, rfl⟩

/-- C1 amended: `LexerSnapshot.tryFrom` does not inspect line statuses at
all — its result is unchanged under any reassignment of every line's status
kind — so line errors are not aggregated by the snapshot builder and a state
with error-status lines can still yield an `Ok` snapshot. -/
theorem c1_line_status_ignored (state : State) (f : Line → LineKind) :
    LexerSnapshot.tryFrom { lines := state.lines.map fun l => { l with kind := f l } }
      = LexerSnapshot.tryFrom state := by
  simp only [LexerSnapshot.tryFrom, LexerSnapshot.factory, flattenLineTokens,
    flattenAux_map_kind]

/-! ## Claim C2 -/

/-- Flat token of `c2State`'s second line: the first non-content successor
of the comment-start fragment, of a kind other than the matching end. -/
def c2FoundToken : FlatLineToken :=
  { kind := LineTokenKind.identifier
    data := "abc"
    positionStart := { codeUnit := 3, lineCodeUnit := 0, lineNumber := 1 }
    positionEnd := { codeUnit := 6, lineCodeUnit := 3, lineNumber := 1 }
    flatIndex := 1 }

/-- State whose flat tokens are a `MultilineCommentStart` followed directly
by an `Identifier` — the impossible configuration that raises an
`InvariantError` inside `readMultilineComment`. -/
def c2State : State :=
  { lines :=
      [{ kind := LineKind.touched
         text := "/*"
         lineTerminator := "\n"
         tokens := [{ kind := LineTokenKind.multilineCommentStart, data := "/*",
                      positionStart := 0, positionEnd := 2 }] },
       { kind := LineKind.touched
         text := "abc"
         lineTerminator := ""
         tokens := [{ kind := LineTokenKind.identifier, data := "abc",
                      positionStart := 0, positionEnd := 3 }] }] }

/-- The invariant error raised on `c2State`. -/
def c2Err : InvariantError :=
  { message := "once a multiline token starts it should either reach a paired end token, or eof"
    foundTokenEnd := some c2FoundToken }

/-- C2 counterexample: on a state whose fragment start is followed by a
non-matching successor, the raised `InvariantError` is caught by `tryFrom`
and converted into an ordinary `Err` result — refuting "tryFrom does not
convert it into an ordinary Err result". -/
theorem c2_counterexample :
    LexerSnapshot.tryFrom c2State = Result.Err (TLexerError.commonError c2Err) := by
  rfl

/-- C2 amended: the `InvariantError` raised on an impossible configuration
terminates stitching, so no partial snapshot is produced; but `tryFrom`'s
catch clause does convert it into an `Err` result, carrying the invariant
error as a `CommonError` (distinguished from the lexer errors). -/
theorem c2_invariant_error_to_err (state : State) (e : InvariantError)
    (h : LexerSnapshot.factory state = Except.error (TInnerException.common e)) :
    LexerSnapshot.tryFrom state = Result.Err (TLexerError.commonError e) := by
  simp [LexerSnapshot.tryFrom, h, wrapException]

/-- C2 witness: the amended theorem applied to the concrete state. -/
theorem c2_witness :
    LexerSnapshot.tryFrom c2State = Result.Err (TLexerError.commonError c2Err) :=
  c2_invariant_error_to_err c2State c2Err (by rfl)

end PowerQuery
